import Mathlib

/-!
Verification of the `build_examples` Nikola plugin
(`src/plugins/build_examples.py`): a shallow embedding of the plugin's
task-generation pipeline (discovery, summary extraction, inline image
embedding, cache materialization, index assembly, incremental tracking)
together with theorems settling the frozen claims about it.

Python strings that are scanned character by character (notebook cell
lines, image paths) are embedded as `List Char`; path-level and
task-level strings are embedded as `String`.
-/

namespace BuildExamples

/-! ## Basic Python string primitives -/

/-- Whitespace characters recognised by Python's `str.strip()`. -/
def isPySpace (c : Char) : Bool :=
  c = ' ' || c = '\t' || c = '\n' || c = '\r' || c = Char.ofNat 11 || c = Char.ofNat 12

/-- Python `s.strip()` on a character list: drop whitespace from both ends. -/
def pyStrip (s : List Char) : List Char :=
  ((s.dropWhile isPySpace).reverse.dropWhile isPySpace).reverse

/-- Python `s.strip(chars)` for a single character: drop that character from both ends. -/
def stripCharBoth (c : Char) (s : List Char) : List Char :=
  ((s.dropWhile (· = c)).reverse.dropWhile (· = c)).reverse

/-- Python `s.replace(a, b)` for single characters. -/
def replaceChar (a b : Char) (s : List Char) : List Char :=
  s.map (fun c => if c = a then b else c)

/-- Python `s.lower()` on a character list. -/
def lowerList (s : List Char) : List Char :=
  s.map Char.toLower

/-- Split a character list at the first occurrence of character `c`:
returns the part before `c` and the part after it, or `none` if `c` does
not occur. -/
def takeUntilChar (c : Char) : List Char → Option (List Char × List Char)
  | [] => none
  | x :: t =>
    if x = c then some ([], t)
    else (takeUntilChar c t).map (fun ab => (x :: ab.1, ab.2))

/-- The part of a character list before the first occurrence of the
pattern `pat` (the whole list if `pat` does not occur); embeds Python's
`s.split(pat)[0]` for a non-empty separator. -/
def takeUntilSub (pat : List Char) : List Char → List Char
  | [] => []
  | c :: t =>
    if pat.isPrefixOf (c :: t) then []
    else c :: takeUntilSub pat t

/-- The part of a character list after the first occurrence of character `c`,
embedding Python's `s.split(c, 1)[1]`; `none` when `c` does not occur
(in Python that indexing raises `IndexError`). -/
def afterFirstChar (c : Char) (s : List Char) : Option (List Char) :=
  (takeUntilChar c s).map (·.2)

/-! ## Path name primitives (embedding `pathlib` accessors on names) -/

/-- Last `/`-separated component of a path given as a character list,
embedding `PurePath.name` / `str(p).split("/")[-1]`. -/
def lastComponent (s : List Char) : List Char :=
  (s.reverse.takeWhile (· ≠ '/')).reverse

/-- Python `PurePath(name).suffix`: the substring from the last dot of the
name, provided that dot is neither the first nor the last character of the
name; otherwise the empty string. -/
def pathSuffix (name : String) : String :=
  match takeUntilChar '.' name.toList.reverse with
  | none => ""
  | some ab =>
    -- `ab.2` holds the characters before the last dot (reversed), `ab.1`
    -- the characters after it (reversed).
    if ab.2.length = 0 then ""
    else if ab.1.length = 0 then ""
    else String.mk ('.' :: ab.1.reverse)

/-- Python `PurePath(name).stem`: the name with `pathSuffix` removed. -/
def pathStem (name : String) : String :=
  String.mk (name.toList.take (name.toList.length - (pathSuffix name).toList.length))

/-- Join two path segments with a slash, embedding `p / q` / `os.path.join`
for the relative paths used in this plugin's configuration. -/
def pathJoin (a b : String) : String := a ++ "/" ++ b

/-! ## Base64 encoding (embedding `base64.b64encode`) -/

/-- The base64 alphabet in index order. -/
def b64Alphabet : List Char :=
  "ABCDEFGHIJKLMNOPQRSTUVWXYZabcdefghijklmnopqrstuvwxyz0123456789+/".toList

/-- Character for a 6-bit group. -/
def b64Char (n : Nat) : Char := b64Alphabet.getD n 'A'

/-- Standard base64 encoding of a byte list with `=` padding, embedding
`base64.b64encode(...).decode("utf-8")`. -/
def base64Encode : List UInt8 → List Char
  | [] => []
  | [a] =>
    [b64Char (a.toNat / 4), b64Char (a.toNat % 4 * 16), '=', '=']
  | [a, b] =>
    [b64Char (a.toNat / 4), b64Char (a.toNat % 4 * 16 + b.toNat / 16),
     b64Char (b.toNat % 16 * 4), '=']
  | a :: b :: c :: rest =>
    b64Char (a.toNat / 4) :: b64Char (a.toNat % 4 * 16 + b.toNat / 16) ::
    b64Char (b.toNat % 16 * 4 + c.toNat / 64) :: b64Char (c.toNat % 64) ::
    base64Encode rest

/-! ## Mime type guessing (model of `mimetypes.guess_type`) -/

/-- Modelled from the Python standard library: `mimetypes.guess_type(name)[0]`
for the image types relevant to the examples, keyed on the (lower-cased)
suffix of the file name's last path component. -/
def guessMime (fname : List Char) : Option String :=
  match pathSuffix (String.mk (lastComponent fname)) with
  | ".png" => some "image/png"
  | ".jpg" => some "image/jpeg"
  | ".jpeg" => some "image/jpeg"
  | ".gif" => some "image/gif"
  | ".svg" => some "image/svg+xml"
  | ".bmp" => some "image/bmp"
  | _ => none

/-- The mime string interpolated by `"data:{mime};base64,..."` in
`get_b64_str`: Python formats the `None` returned by an unknown type as
the text `None`. -/
def mimeText (fname : List Char) : List Char :=
  match guessMime fname with
  | some m => m.toList
  | none => "None".toList

/-! ## The two regular-expression operations used on notebook lines

`re.sub("<img.*/>", new, s)` (greedy) and
`re.sub(r"![...](...)", new, s)` / `re.findall(r"!\[(.*?)\]\((.*?)\)", s)[0]`
(lazy), embedded as explicit scanners over `List Char`.  `.` in a Python
regex does not match a newline, so every scanner stops at `'\n'`. -/

/-- Scan for the pattern `pat` (assumed newline-free and non-empty):
if `pat` occurs with no newline before it, return the characters before
the first occurrence and the characters after it. -/
def mdTakeUntilPat (pat : List Char) : List Char → Option (List Char × List Char)
  | [] => none
  | c :: t =>
    if pat.isPrefixOf (c :: t) then some ([], (c :: t).drop pat.length)
    else if c = '\n' then none
    else (mdTakeUntilPat pat t).map (fun ab => (c :: ab.1, ab.2))

/-- Match the regex `!\[(.*?)\]\((.*?)\)` at the start of `s`: on success
returns the two lazy groups (alt text and image path) and the remainder of
the line after the match. -/
def mdMatchAt (s : List Char) : Option (List Char × List Char × List Char) :=
  match s with
  | '!' :: '[' :: t =>
    (mdTakeUntilPat "](".toList t).bind (fun au =>
      (mdTakeUntilPat ")".toList au.2).map (fun fr => (au.1, fr.1, fr.2)))
  | _ => none

/-- First match of the image-link regex anywhere in `s` (the element
`re.findall(...)[0]` picks), as the pair (alt text, image path). -/
def mdFirstMatch : List Char → Option (List Char × List Char)
  | [] => none
  | c :: t =>
    match mdMatchAt (c :: t) with
    | some (alt, fname, _) => some (alt, fname)
    | none => mdFirstMatch t

/-- Fuel-indexed scanner for `mdSubAll`; each step consumes at least one
character, so `s.length + 1` fuel always suffices. -/
def mdSubAllF (repl : List Char) : Nat → List Char → List Char
  | 0, s => s
  | fuel + 1, s =>
    match mdMatchAt s with
    | some afr => repl ++ mdSubAllF repl fuel afr.2.2
    | none =>
      match s with
      | [] => []
      | c :: t => c :: mdSubAllF repl fuel t

/-- `re.sub(r"!\[.*?\]\(.*?\)", repl, s)`: replace every (lazy) match of
the image-link regex by `repl`, scanning left to right. -/
def mdSubAll (repl : List Char) (s : List Char) : List Char :=
  mdSubAllF repl (s.length + 1) s

/-- Given the characters after a literal `<img`, the remainder of the line
after the end of the greedy match of `.*/>`: the last occurrence of `/>`
reachable without crossing a newline (Python's greedy `.*`). -/
def imgGreedyEnd : List Char → Option (List Char)
  | [] => none
  | c :: t =>
    match (if c = '\n' then none else imgGreedyEnd t) with
    | some r => some r
    | none => if ['/', '>'].isPrefixOf (c :: t) then some t.tail else none

/-- Fuel-indexed scanner for `imgSubAll`; each step consumes at least one
character, so `s.length + 1` fuel always suffices. -/
def imgSubAllF (repl : List Char) : Nat → List Char → List Char
  | 0, s => s
  | fuel + 1, s =>
    match s with
    | [] => []
    | c :: t =>
      if "<img".toList.isPrefixOf (c :: t) then
        match imgGreedyEnd ((c :: t).drop 4) with
        | some rest => repl ++ imgSubAllF repl fuel rest
        | none => c :: imgSubAllF repl fuel t
      else c :: imgSubAllF repl fuel t

/-- `re.sub("<img.*/>", repl, s)`: replace every greedy match of the
self-closing image-tag regex by `repl`, scanning left to right.  A line
holding an `img` tag that is not self-closing has no match and is left
unchanged. -/
def imgSubAll (repl : List Char) (s : List Char) : List Char :=
  imgSubAllF repl (s.length + 1) s

/-! ## Model of the `lxml.html` calls

The plugin parses a cell line with `lxml.html.fromstring`, reads and
rewrites the `src` attribute of the resulting `img` element, and
serialises it back with `lxml.html.tostring`.  The model covers lines
that consist of exactly one `img` tag with a single `src` attribute
(self-closing or not); on any other line the attribute access is
modelled as the failure it raises in Python (`KeyError` on a wrapper
element, or a parser error). -/

/-- Modelled from `lxml.html`: the `src` attribute of a line holding
exactly one `img` tag of the form `<img src="...">` or `<img src=".../">`;
`none` models the exception raised on other inputs. -/
def lxmlParseImg (s : List Char) : Option (List Char) :=
  if "<img src=\"".toList.isPrefixOf s then
    match takeUntilChar '"' (s.drop 10) with
    | none => none
    | some (src, rest) =>
      if rest = ">".toList ∨ rest = "/>".toList then some src else none
  else none

/-- Modelled from `lxml.html.tostring` on an `img` element with a single
`src` attribute: serialises as a non-self-closing HTML `img` tag. -/
def lxmlToString (src : List Char) : List Char :=
  "<img src=\"".toList ++ src ++ "\">".toList

/-! ## Notebook documents and the embedding pass -/

/-- Errors the embedding pass can raise; they model uncaught Python
exceptions propagating out of `gen_tasks`. -/
inductive Err where
  /-- `FileNotFoundError`/`OSError` from `open` in `get_b64_str`. -/
  | fileNotFound : Err
  /-- `KeyError` on a dictionary subscript. -/
  | keyError (k : String) : Err
  /-- `UnboundLocalError` reading a local variable never assigned. -/
  | unboundLocal (n : String) : Err
  /-- `NameError` resolving an undefined name. -/
  | nameError (n : String) : Err
  /-- `IndexError` on a list subscript. -/
  | indexError : Err
  /-- An `lxml` parse/attribute failure on a non-image line. -/
  | lxmlError : Err
deriving DecidableEq, Repr

/-- Decidable equality for `Except` results, so that concrete runs of the
embedding can be checked by evaluation. -/
instance {ε α : Type} [DecidableEq ε] [DecidableEq α] : DecidableEq (Except ε α) :=
  fun a b =>
    match a, b with
    | .ok x, .ok y =>
      if h : x = y then isTrue (by rw [h]) else isFalse (by intro hx; cases hx; exact h rfl)
    | .error e, .error f =>
      if h : e = f then isTrue (by rw [h]) else isFalse (by intro hx; cases hx; exact h rfl)
    | .ok _, .error _ => isFalse (by intro hx; cases hx)
    | .error _, .ok _ => isFalse (by intro hx; cases hx)

/-- One notebook cell: a `cell_type`, the `source` lines, and the
`attachments` table (file name to mime type to base64 payload). -/
structure Cell where
  cell_type : String
  source : List (List Char)
  attachments : List (List Char × List (String × List Char)) := []
deriving DecidableEq, Repr

/-- A notebook document: the top-level `cells` array. -/
structure Notebook where
  cells : List Cell
deriving DecidableEq, Repr

/-- Embeds `get_b64_str`: read the image bytes through `resolve` (the
lookup of `p / dir / img_fname`), base64-encode them and build the
`data:` URI; a file that cannot be read raises. -/
def getB64Str (resolve : List Char → Option (List UInt8)) (fname : List Char) :
    Except Err (List Char) :=
  match resolve fname with
  | none => .error .fileNotFound
  | some bytes =>
    .ok ("data:".toList ++ mimeText fname ++ ";base64,".toList ++ base64Encode bytes)

/-- Look up an attachment payload `cell["attachments"][img_fname][mime]`. -/
def attachmentLookup (att : List (List Char × List (String × List Char)))
    (fname : List Char) (mime : Option String) : Except Err (List Char) :=
  match att.find? (fun kv => kv.1 = fname) with
  | none => .error (.keyError (String.mk fname))
  | some kv =>
    match mime with
    | none => .error (.keyError "None")
    | some m =>
      match kv.2.find? (fun mv => mv.1 = m) with
      | none => .error (.keyError m)
      | some mv => .ok mv.2

/-- Embeds the body of the per-line loop over `cell["source"]` in the
Jupyter branch of `gen_tasks`: detect an image reference in either
notation and rewrite it to a `data:` URI, or leave the line unchanged. -/
def processLine (resolve : List Char → Option (List UInt8))
    (att : List (List Char × List (String × List Char))) (s : List Char) :
    Except Err (List Char) :=
  if "img".toList <:+: s then
    match lxmlParseImg s with
    | none => .error .lxmlError
    | some src =>
      match getB64Str resolve src with
      | .error e => .error e
      | .ok uri => .ok (imgSubAll (lxmlToString uri) s)
  else if "![".toList <:+: s then
    match mdFirstMatch s with
    | none => .error .indexError
    | some (alt, fname) =>
      let b64 : Except Err (List Char) :=
        if "attachment".toList <:+: fname then
          match afterFirstChar ':' fname with
          | none => .error .indexError
          | some fname' =>
            match attachmentLookup att fname' (guessMime fname') with
            | .error e => .error e
            | .ok payload =>
              .ok ("data:".toList ++ mimeText fname' ++ ";base64,".toList ++ payload)
        else getB64Str resolve fname
      match b64 with
      | .error e => .error e
      | .ok uri =>
        .ok (mdSubAll ("<img src=\"".toList ++ uri ++ "\" alt=\"".toList ++
              alt ++ "\"/>".toList) s)
  else .ok s

/-- Error-propagating map over a list, embedding a Python `for` loop whose
body may raise: stops at the first raised exception. -/
def mapE (f : α → Except Err β) : List α → Except Err (List β)
  | [] => .ok []
  | x :: t =>
    match f x with
    | .error e => .error e
    | .ok y =>
      match mapE f t with
      | .error e => .error e
      | .ok ys => .ok (y :: ys)

/-- The `if not doc: doc = cell["source"][0].replace("#", "").strip()`
step on one markdown cell: an empty summary so far is replaced by the
processed first line; an empty source list raises `IndexError`. -/
def cellDoc (doc : List Char) (cell : Cell) : Except Err (List Char) :=
  if doc = [] then
    match cell.source with
    | [] => .error .indexError
    | s0 :: _ => .ok (pyStrip (s0.filter (· ≠ '#')))
  else .ok doc

/-- Embeds the per-cell loop of the Jupyter branch: threads the summary
variable `doc` (empty until the first markdown cell with a non-empty
processed first line) and rewrites each markdown cell's source lines. -/
def processCells (resolve : List Char → Option (List UInt8)) (doc : List Char) :
    List Cell → Except Err (List Cell × List Char)
  | [] => .ok ([], doc)
  | cell :: rest =>
    if cell.cell_type = "markdown" then
      match cellDoc doc cell with
      | .error e => .error e
      | .ok doc' =>
        match mapE (processLine resolve cell.attachments) cell.source with
        | .error e => .error e
        | .ok src' =>
          match processCells resolve doc' rest with
          | .error e => .error e
          | .ok (cells', docF) =>
            .ok ({ cell with source := src' } :: cells', docF)
    else
      match processCells resolve doc rest with
      | .error e => .error e
      | .ok (cells', docF) => .ok (cell :: cells', docF)

/-- Embeds the whole per-file pass of the Jupyter branch (summary
extraction plus inline image embedding): returns the rewritten notebook
(the value serialised to the cache copy) and the summary. -/
def processNb (resolve : List Char → Option (List UInt8)) (nb : Notebook) :
    Except Err (Notebook × List Char) :=
  match processCells resolve [] nb.cells with
  | .error e => .error e
  | .ok (cells', doc) => .ok (⟨cells'⟩, doc)

/-! ## Natural sorting (model of `natsort.natsorted(..., alg=natsort.IC)`)

Modelled from the `natsort` documentation: each string is keyed by its
decomposition into alternating non-digit and digit runs; digit runs
compare as numbers and non-digit runs compare lexicographically after
case-folding (`IC` = ignore case); the key always starts with a
(possibly empty) non-digit run so that positions of equal index always
hold the same chunk kind.  The sort is stable, like Python's. -/

/-- One chunk of a natural-sort key. -/
inductive NatChunk where
  | str (s : List Char) : NatChunk
  | num (n : Nat) : NatChunk
deriving DecidableEq, Repr

/-- Numeric value of a digit run. -/
def digitRunVal (s : List Char) : Nat :=
  s.foldl (fun acc c => acc * 10 + (c.toNat - '0'.toNat)) 0

/-- A finished run of characters turned into a key chunk. -/
def mkChunk (isDig : Bool) (run : List Char) : NatChunk :=
  if isDig then NatChunk.num (digitRunVal run) else NatChunk.str (lowerList run)

/-- Split a string into alternating non-digit/digit chunks, carrying the
current run (kind and reversed characters) through the scan. -/
def natChunksAux : List Char → Option (Bool × List Char) → List NatChunk
  | [], none => []
  | [], some br => [mkChunk br.1 br.2.reverse]
  | c :: t, none => natChunksAux t (some (c.isDigit, [c]))
  | c :: t, some br =>
    if c.isDigit = br.1 then natChunksAux t (some (br.1, c :: br.2))
    else mkChunk br.1 br.2.reverse :: natChunksAux t (some (c.isDigit, [c]))

/-- Split a string into alternating non-digit/digit chunks. -/
def natChunks (s : List Char) : List NatChunk :=
  natChunksAux s none

/-- Natural-sort key of a string: its chunk list, forced to start with a
(possibly empty) string chunk. -/
def natKey (s : String) : List NatChunk :=
  match natChunks s.toList with
  | NatChunk.num n :: rest => NatChunk.str [] :: NatChunk.num n :: rest
  | other => other

/-- Lexicographic comparison of character lists (case already folded). -/
def cmpChars : List Char → List Char → Ordering
  | [], [] => .eq
  | [], _ :: _ => .lt
  | _ :: _, [] => .gt
  | a :: as, b :: bs =>
    if a.toNat < b.toNat then .lt
    else if b.toNat < a.toNat then .gt
    else cmpChars as bs

/-- Comparison of key chunks; mixed kinds cannot meet at equal positions
of two `natKey` values, and are ordered arbitrarily (string first). -/
def cmpChunk : NatChunk → NatChunk → Ordering
  | .str a, .str b => cmpChars a b
  | .num a, .num b => compare a b
  | .str _, .num _ => .lt
  | .num _, .str _ => .gt

/-- Comparison of natural-sort keys. -/
def cmpKey : List NatChunk → List NatChunk → Ordering
  | [], [] => .eq
  | [], _ :: _ => .lt
  | _ :: _, [] => .gt
  | a :: as, b :: bs =>
    match cmpChunk a b with
    | .eq => cmpKey as bs
    | o => o

/-- Stable insertion of `x` into an already-sorted list: `x` goes after
every element whose key is not greater. -/
def natInsert (x : String) : List String → List String
  | [] => [x]
  | y :: ys =>
    if cmpKey (natKey x) (natKey y) = .lt then x :: y :: ys
    else y :: natInsert x ys

/-- Modelled from the `natsort` package: `natsort.natsorted(l, alg=natsort.IC)`,
a stable sort of strings by their case-folded natural keys. -/
def natsorted (l : List String) : List String :=
  l.foldl (fun acc x => natInsert x acc) []

/-- A plain lexical sort of strings by code point, used to contrast with
`natsorted`. -/
def lexInsert (x : String) : List String → List String
  | [] => [x]
  | y :: ys =>
    if cmpChars x.toList y.toList = .lt then x :: y :: ys
    else y :: lexInsert x ys

/-- Plain lexical sorting (what the spec says must NOT be used). -/
def lexSorted (l : List String) : List String :=
  l.foldl (fun acc x => lexInsert x acc) []

/-! ## Summary extraction models for the three example kinds -/

/-- One top-level statement of a parsed Python module body: either an
expression statement holding a string literal (`ast.Expr` of `ast.Str`),
or any other statement. -/
inductive PyNode where
  | strExpr (s : List Char) : PyNode
  | other : PyNode
deriving DecidableEq, Repr

/-- Embeds the docstring post-processing of the Python branch:
`node.value.s.strip().split("\n\n")[0].strip()` with a trailing period
enforced. -/
def pyDocOf (s : List Char) : List Char :=
  let d := pyStrip (takeUntilSub "\n\n".toList (pyStrip s))
  if d.getLast? = some '.' then d else d ++ ['.']

/-- Embeds the `for node in mod.body` search of the Python branch: the
summary variable `doc` after processing one file, given its value `docVar`
before the file (`none` when `doc` has never been assigned).  A file with
no top-level string literal leaves `doc` untouched. -/
def pyFileDoc (docVar : Option (List Char)) (body : List PyNode) : Option (List Char) :=
  match body.findSome? (fun n => match n with
      | .strExpr s => some s
      | .other => none) with
  | some s => some (pyDocOf s)
  | none => docVar

/-- Embeds the Matlab summary loop (`for line in mfile`): the value of
`doc` when the loop ends — for each line, a line whose stripped form
starts with `%` assigns its stripped `%`-content to `doc`, and the loop
breaks as soon as `doc` is non-empty. -/
def matlabLoop : List String → List Char
  | [] => []
  | l :: rest =>
    if (pyStrip l.toList).head? = some '%' then
      if pyStrip (stripCharBoth '%' (pyStrip l.toList)) = [] then matlabLoop rest
      else pyStrip (stripCharBoth '%' (pyStrip l.toList))
    else matlabLoop rest

/-- Embeds the restated-filename heuristic of the Matlab branch:
`if doc.lower().replace("_", " ").startswith(name): doc = doc[len(name):].strip()`
with `name = stem.replace("_", " ")`. -/
def matlabStripName (fname : String) (doc : List Char) : List Char :=
  let name := replaceChar '_' ' ' (pathStem fname).toList
  if name.isPrefixOf (replaceChar '_' ' ' (lowerList doc)) then
    pyStrip (doc.drop name.length)
  else doc

/-- The Matlab summary of a file: the summary loop followed by the
restated-filename heuristic. -/
def matlabSummary (fname : String) (lines : List String) : List Char :=
  matlabStripName fname (matlabLoop lines)

/-- The comment content a line contributes to the Matlab summary scan:
its stripped `%`-content when the stripped line starts with `%` and that
content is non-empty. -/
def commentContent (l : String) : Option (List Char) :=
  if (pyStrip l.toList).head? = some '%' then
    if pyStrip (stripCharBoth '%' (pyStrip l.toList)) = [] then none
    else some (pyStrip (stripCharBoth '%' (pyStrip l.toList)))
  else none

/-- Declarative form of the Matlab summary loop: the content of the first
line anywhere in the file with non-empty comment content. -/
def firstNonemptyComment (lines : List String) : List Char :=
  ((lines.filterMap commentContent).head?).getD []

/-- Modelled from the spec's words (for comparison with the code): "the
first contiguous run of comment lines at the top of the file becomes the
summary" — the stripped contents of the leading run of comment lines,
joined with single spaces. -/
def specMatlabTopRun (lines : List String) : List Char :=
  let run := (lines.map (fun l => pyStrip l.toList)).takeWhile
      (fun ls => ls.head? = some '%')
  match run.map (fun ls => pyStrip (stripCharBoth '%' ls)) with
  | [] => []
  | d :: rest => rest.foldl (fun acc x => acc ++ ' ' :: x) d

/-- Declarative form of the notebook summary: the processed first line of
the first markdown cell whose processed first line is non-empty (all `#`
characters removed, then stripped); empty if there is none.  A markdown
cell with an empty source list is unreachable when processing succeeded. -/
def firstMdSummary : List Cell → List Char
  | [] => []
  | c :: rest =>
    if c.cell_type = "markdown" then
      match c.source with
      | [] => []
      | s0 :: _ =>
        if pyStrip (s0.filter (· ≠ '#')) = [] then firstMdSummary rest
        else pyStrip (s0.filter (· ≠ '#'))
    else firstMdSummary rest

/-- Modelled from the spec's words (for comparison with the code): the
first line "with leading markup markers stripped" — leading `#` markers
removed, then surrounding whitespace stripped. -/
def specStripLeadingMarkers (s : List Char) : List Char :=
  pyStrip (s.dropWhile (· = '#'))

/-! ## Site configuration, discovered inputs and generated tasks -/

/-- The `self.kw` dictionary captured in `set_site`.  `examples_folders`
is the `EXAMPLES_FOLDERS` dict as an (insertion-ordered) association list
of source-folder/destination-folder pairs. -/
structure Kw where
  default_lang : String
  examples_folders : List (String × String)
  output_folder : String
  index_file : String
  strip_indexes : Bool
  cache_folder : String
deriving DecidableEq, Repr

/-- The site state read by `gen_tasks` when it builds the `uptodate`
dictionary and renders: the global context, the template hooks with their
computed dependencies, the translatable context values evaluated at the
default language, the navigation links value, and the template system's
`template_deps` lookup. -/
structure SiteCtx where
  global_context : List (String × String)
  template_hooks : List (String × String)
  translatable : List (String × String)
  nav_links : String
  templateDeps : String → List String

/-- A discovered Python example file: its category directory, its file
name, and its parsed top-level module body. -/
structure PyFile where
  category : String
  name : String
  body : List PyNode
deriving DecidableEq, Repr

/-- A discovered Matlab example file: its name and its text lines. -/
structure MlabFile where
  name : String
  lines : List String
deriving DecidableEq, Repr

/-- A directory entry in a Jupyter category folder. -/
structure JupFile where
  name : String
  isDir : Bool
  nb : Notebook
deriving DecidableEq, Repr

/-- A directory entry in a Jupyter examples folder. -/
structure JupCat where
  name : String
  isDir : Bool
  files : List JupFile
deriving DecidableEq, Repr

/-- The filesystem as the plugin observes it: globbed Python files,
iterated Matlab and Jupyter directory entries, and image files by path. -/
structure FS where
  pyFiles : String → List PyFile
  mlabFiles : String → List MlabFile
  jupCats : String → List JupCat
  images : String → Option (List UInt8)

/-- The `self.ignored_extensions` tuple. -/
def ignoredExtensions : List String :=
  [".pyc", ".pyo", ".cti", ".dat", ".ipynb_checkpoints"]

/-- The names visible from inside `gen_tasks` when an action tuple is
built: the nested functions defined in `gen_tasks` itself plus the
module-level imports of `build_examples.py`.  `render_listing` is not
among them — it is defined nowhere in the module. -/
def genScopeNames : List String :=
  ["render_example_index", "render_example", "get_b64_str",
   "self", "uptodate", "uptodate2", "headers",
   "Path", "ast", "re", "base64", "mimetypes", "OrderedDict", "os",
   "lxml", "json", "Task", "utils", "highlight", "ClassNotFound",
   "get_lexer_for_filename", "guess_lexer", "TextLexer", "MatlabLexer",
   "natsort", "BuildExamples"]

/-- Python name resolution at the point an action tuple is built: a name
not in scope raises `NameError` the moment the tuple expression is
evaluated. -/
def resolveName (n : String) : Option String :=
  if genScopeNames.contains n then some n else none

/-- Serialisation of an association list into the change-detection
fingerprint. -/
def pairsRepr (l : List (String × String)) : String :=
  l.foldl (fun acc kv => acc ++ "|" ++ kv.1 ++ "=" ++ kv.2) ""

/-- Serialisation of `self.kw` into the fingerprint. -/
def kwRepr (kw : Kw) : String :=
  kw.default_lang ++ "|" ++ pairsRepr kw.examples_folders ++ "|" ++
    kw.output_folder ++ "|" ++ kw.index_file ++ "|" ++
    (if kw.strip_indexes then "True" else "False") ++ "|" ++ kw.cache_folder

/-- The base `uptodate` dictionary built at the top of `gen_tasks`:
global context, template-hook dependencies, translatable values at the
default language, navigation links, and the plugin configuration. -/
def buildUptodate (ctx : SiteCtx) (kw : Kw) : List (String × String) :=
  ("c", pairsRepr ctx.global_context) ::
    (ctx.template_hooks.map (fun kv => ("||template_hooks|" ++ kv.1 ++ "||", kv.2)) ++
      ctx.translatable ++ [("nav_links", ctx.nav_links), ("kw", kwRepr kw)])

/-- A `utils.config_changed(dict, label)` token: the serialised dictionary
(base entries plus the optional per-folder `d`/`f` entries) and its label. -/
structure Fingerprint where
  base : List (String × String)
  d : Option (List String) := none
  f : Option (List String) := none
  label : String
deriving DecidableEq, Repr

/-- One entry of the per-folder `headers` dictionary. -/
structure CatHeader where
  key : String
  name : String
  files : Option (List String) := none
  summaries : Option (List (String × List Char)) := none
deriving DecidableEq, Repr

/-- The action of a generated task. -/
inductive Action where
  /-- The initial `self.group_task()`. -/
  | group : Action
  /-- `render_example_index` with the folder's headers. -/
  | renderIndex (exType : String) (headers : List CatHeader) (target : String) : Action
  /-- `render_example` on a source file. -/
  | renderExample (inName target : String) : Action
  /-- `utils.copy_file`. -/
  | copyFile (src target : String) : Action
  /-- What the Matlab/Jupyter per-file HTML task would carry if the name
  `render_listing` resolved; no yielded task can carry it, because the
  resolution fails. -/
  | renderListing (inName target : String) : Action
deriving DecidableEq, Repr

/-- One task dictionary yielded by `gen_tasks`. -/
structure Task where
  name : String
  file_dep : List String
  targets : List String
  action : Action
  uptodate : Option Fingerprint
deriving DecidableEq, Repr

/-- What processing one examples folder produces: the yielded tasks, the
exception that aborted the generator (if any), and the value of the
generator-local variable `doc` afterwards. -/
structure BranchRes where
  tasks : List Task
  error : Option Err
  docVar : Option (List Char)
deriving Repr

/-- The outcome of iterating `gen_tasks`: all tasks yielded before the
generator either finished or raised. -/
structure GenResult where
  tasks : List Task
  error : Option Err
deriving Repr

/-- Python dict assignment `d[k] = v` on an association list. -/
def assocSet (l : List (String × List Char)) (k : String) (v : List Char) :
    List (String × List Char) :=
  if l.any (fun kv => kv.1 = k) then
    l.map (fun kv => if kv.1 = k then (k, v) else kv)
  else l ++ [(k, v)]

/-- Update the header entry with the given key. -/
def updateCat (hs : List CatHeader) (key : String) (f : CatHeader → CatHeader) :
    List CatHeader :=
  hs.map (fun h => if h.key = key then f h else h)

/-- The fixed category headers of the Python branch. -/
def pyInitHeaders : List CatHeader :=
  [⟨"thermo", "Thermodynamics", some [], some []⟩,
   ⟨"kinetics", "Kinetics", some [], some []⟩,
   ⟨"transport", "Transport", some [], some []⟩,
   ⟨"reactors", "Reactor Networks", some [], some []⟩,
   ⟨"onedim", "One-Dimensional Flames", some [], some []⟩,
   ⟨"multiphase", "Multiphase Mixtures", some [], some []⟩,
   ⟨"surface_chemistry", "Surface Chemistry", some [], some []⟩]

/-- Path of a globbed Python example (`input_folder/category/name`). -/
def pyPath (input : String) (f : PyFile) : String :=
  input ++ "/" ++ f.category ++ "/" ++ f.name

/-- The state of the Python per-file loop when it ends or raises. -/
structure PyLoopRes where
  headers : List CatHeader
  docVar : Option (List Char)
  tasks : List Task
  error : Option Err
deriving Repr

/-- The HTML-render task of one Python example file. -/
def pyHtmlTask (ctx : SiteCtx) (kw : Kw) (input dest : String) (upt2src : Fingerprint)
    (f : PyFile) : Task :=
  ⟨kw.output_folder ++ "/" ++ dest ++ "/" ++ f.category ++ "/" ++ f.name ++ ".html",
    ctx.templateDeps "examples.tmpl" ++ [pyPath input f],
    [kw.output_folder ++ "/" ++ dest ++ "/" ++ f.category ++ "/" ++ f.name ++ ".html"],
    .renderExample (pyPath input f)
      (kw.output_folder ++ "/" ++ dest ++ "/" ++ f.category ++ "/" ++ f.name ++ ".html"),
    some upt2src⟩

/-- The verbatim-copy task of one Python example file. -/
def pyCopyTask (kw : Kw) (input dest : String) (f : PyFile) : Task :=
  ⟨kw.output_folder ++ "/" ++ dest ++ "/" ++ f.category ++ "/" ++ f.name,
    [pyPath input f],
    [kw.output_folder ++ "/" ++ dest ++ "/" ++ f.category ++ "/" ++ f.name],
    .copyFile (pyPath input f)
      (kw.output_folder ++ "/" ++ dest ++ "/" ++ f.category ++ "/" ++ f.name),
    none⟩

/-- The per-file loop of the Python branch: appends each file to its
category, extracts its summary through the shared `doc` variable, records
it, and yields the HTML-render and copy tasks.  A category outside the
fixed seven raises `KeyError`; a file with no top-level string literal
raises `UnboundLocalError` when `doc` was never assigned before. -/
def pyLoop (ctx : SiteCtx) (kw : Kw) (input dest : String) (upt2src : Fingerprint)
    (headers : List CatHeader) (docVar : Option (List Char)) :
    List PyFile → PyLoopRes
  | [] => ⟨headers, docVar, [], none⟩
  | f :: rest =>
    if headers.any (fun h => h.key = f.category) then
      let headers1 := updateCat headers f.category
        (fun h => { h with files := h.files.map (fun fl => fl ++ [pyPath input f]) })
      match pyFileDoc docVar f.body with
      | none => ⟨headers1, none, [], some (.unboundLocal "doc")⟩
      | some doc' =>
        let headers2 := updateCat headers1 f.category
          (fun h => { h with summaries := h.summaries.map (fun sm => assocSet sm f.name doc') })
        let r := pyLoop ctx kw input dest upt2src headers2 (some doc') rest
        ⟨r.headers, r.docVar,
          pyHtmlTask ctx kw input dest upt2src f :: pyCopyTask kw input dest f :: r.tasks,
          r.error⟩
    else ⟨headers, docVar, [], some (.keyError f.category)⟩

/-- The `uptodate2` fingerprint of the Python branch under a given label. -/
def pyUpt2 (ctx : SiteCtx) (kw : Kw) (fpaths : List String) (label : String) : Fingerprint :=
  ⟨buildUptodate ctx kw, some (pyInitHeaders.map (fun h => h.key)), some fpaths, label⟩

/-- The index task of the Python branch. -/
def pyIdxTask (ctx : SiteCtx) (kw : Kw) (dest : String) (headersS : List CatHeader)
    (fpaths : List String) : Task :=
  ⟨kw.output_folder ++ "/" ++ dest ++ "/" ++ kw.index_file,
    ctx.templateDeps "python-example-index.tmpl",
    [kw.output_folder ++ "/" ++ dest ++ "/" ++ kw.index_file],
    .renderIndex "python" headersS (kw.output_folder ++ "/" ++ dest ++ "/" ++ kw.index_file),
    some (pyUpt2 ctx kw fpaths "build_examples:folder")⟩

/-- The Python branch of `gen_tasks` for one examples folder: the per-file
tasks in discovery order, then (when no exception was raised) the single
index task over the natural-sorted headers. -/
def pyBranch (fs : FS) (ctx : SiteCtx) (kw : Kw) (docVar : Option (List Char))
    (input dest : String) : BranchRes :=
  let files := fs.pyFiles input
  let fpaths := files.map (pyPath input)
  let r := pyLoop ctx kw input dest (pyUpt2 ctx kw fpaths "build_examples:source")
    pyInitHeaders docVar files
  match r.error with
  | some e => ⟨r.tasks, some e, r.docVar⟩
  | none =>
    ⟨r.tasks ++ [pyIdxTask ctx kw dest
        (r.headers.map (fun h => { h with files := h.files.map natsorted })) fpaths],
      none, r.docVar⟩

/-- The discovery filter of the Matlab branch. -/
def mlabEligible (files : List MlabFile) : List MlabFile :=
  files.filter (fun f =>
    !(decide ("tut".toList <:+: f.name.toList)) && !(f.name == "README") &&
    !(decide ("test".toList <:+: f.name.toList)) &&
    !(ignoredExtensions.contains (pathSuffix f.name)) && !(f.name == ".DS_Store"))

/-- Path of a Matlab example file (`input_folder/name`). -/
def mlabPath (input : String) (f : MlabFile) : String := input ++ "/" ++ f.name

/-- The index task of the Matlab branch. -/
def mlabIdxTask (ctx : SiteCtx) (kw : Kw) (dest : String) (files : List MlabFile)
    (input : String) : Task :=
  ⟨kw.output_folder ++ "/" ++ dest ++ "/" ++ kw.index_file,
    ctx.templateDeps "matlab-example-index.tmpl",
    [kw.output_folder ++ "/" ++ dest ++ "/" ++ kw.index_file],
    .renderIndex "matlab"
      [⟨"examples", "Examples", some (natsorted (files.map (mlabPath input))),
        some (files.map (fun f => (f.name, matlabSummary f.name f.lines)))⟩]
      (kw.output_folder ++ "/" ++ dest ++ "/" ++ kw.index_file),
    some ⟨buildUptodate ctx kw, some ["examples"], some (files.map (mlabPath input)),
      "build_examples:folder"⟩⟩

/-- The Matlab branch of `gen_tasks` for one examples folder: summaries
and headers are assembled and the index task is yielded first; the
per-file loop then evaluates the action tuple `(render_listing, ...)`,
whose name resolution fails, so the generator raises before yielding any
per-file task. -/
def mlabBranch (fs : FS) (ctx : SiteCtx) (kw : Kw) (docVar : Option (List Char))
    (input dest : String) : BranchRes :=
  let files := mlabEligible (fs.mlabFiles input)
  let docVar' := match (files.map (fun f => matlabSummary f.name f.lines)).getLast? with
    | some d0 => some d0
    | none => docVar
  match files with
  | [] => ⟨[mlabIdxTask ctx kw dest files input], none, docVar'⟩
  | _ :: _ =>
    match resolveName "render_listing" with
    | none => ⟨[mlabIdxTask ctx kw dest files input],
        some (.nameError "render_listing"), docVar'⟩
    | some _ => ⟨[mlabIdxTask ctx kw dest files input], none, docVar'⟩

/-- The discovery filter on entries of a Jupyter category directory. -/
def jupFileEligible (f : JupFile) : Bool :=
  !(ignoredExtensions.contains (pathSuffix f.name)) && !f.isDir &&
  !(f.name == ".ipynb_checkpoints") && !(f.name == ".DS_Store")

/-- The discovery filter on category entries of a Jupyter examples folder. -/
def jupCatEligible (c : JupCat) : Bool :=
  c.isDir && !(c.name.startsWith ".") && !(ignoredExtensions.contains (pathSuffix c.name))

/-- The image lookup `get_b64_str(p, ex_category, img_fname)` performs for
one category: `ex_category` is already the joined path
`input_folder/cat`, and is joined below `p` again, reproducing the
doubled path the code opens. -/
def jupResolve (fs : FS) (input catName : String) : List Char → Option (List UInt8) :=
  fun fn => fs.images (input ++ "/" ++ (input ++ "/" ++ catName) ++ "/" ++ String.mk fn)

/-- The per-file loop of one Jupyter category: processes each eligible
notebook (summary plus image embedding), records the source path, the
cache path and the summary, and threads the `doc` variable. -/
def jupFileFold (fs : FS) (kw : Kw) (input dest catName : String)
    (tf cf : List String) (sm : List (String × List Char)) (docVar : Option (List Char)) :
    List JupFile →
      Except Err (List String × List String × List (String × List Char) × Option (List Char))
  | [] => .ok (tf, cf, sm, docVar)
  | f :: rest =>
    if jupFileEligible f then
      match processNb (jupResolve fs input catName) f.nb with
      | .error e => .error e
      | .ok (_, doc) =>
        jupFileFold fs kw input dest catName
          (tf ++ [input ++ "/" ++ catName ++ "/" ++ f.name])
          (cf ++ [kw.cache_folder ++ "/" ++ dest ++ "/" ++ pathStem catName ++ "/" ++ f.name])
          (assocSet sm f.name doc) (some doc) rest
    else jupFileFold fs kw input dest catName tf cf sm docVar rest

/-- The fixed category headers of the Jupyter branch (no `files` or
`summaries` entries until a category directory fills them in). -/
def jupInitHeaders : List CatHeader :=
  [⟨"thermo", "Thermodynamics", none, none⟩,
   ⟨"reactors", "Reactor Networks", none, none⟩,
   ⟨"flames", "One-Dimensional Flames", none, none⟩]

/-- The per-category loop of the Jupyter branch: category directories are
processed in order; after a category's files are processed, assigning into
`headers[cat.stem]` raises `KeyError` for a category outside the fixed
three. -/
def jupCatFold (fs : FS) (kw : Kw) (input dest : String) (headers : List CatHeader)
    (cacheFiles : List String) (docVar : Option (List Char)) :
    List JupCat → Except Err (List CatHeader × List String × Option (List Char))
  | [] => .ok (headers, cacheFiles, docVar)
  | cat :: rest =>
    if jupCatEligible cat then
      match jupFileFold fs kw input dest cat.name [] [] [] docVar cat.files with
      | .error e => .error e
      | .ok (tf, cf, sm, dv) =>
        if headers.any (fun h => h.key = pathStem cat.name) then
          let headers' := updateCat headers (pathStem cat.name)
            (fun h => { h with summaries := some sm, files := some (natsorted tf) })
          jupCatFold fs kw input dest headers' (cacheFiles ++ cf) dv rest
        else .error (.keyError (pathStem cat.name))
    else jupCatFold fs kw input dest headers cacheFiles docVar rest

/-- The index task of the Jupyter branch. -/
def jupIdxTask (ctx : SiteCtx) (kw : Kw) (dest : String) (headersF : List CatHeader)
    (cacheFiles : List String) : Task :=
  ⟨kw.output_folder ++ "/" ++ dest ++ "/" ++ kw.index_file,
    ctx.templateDeps "jupyter-example-index.tmpl",
    [kw.output_folder ++ "/" ++ dest ++ "/" ++ kw.index_file],
    .renderIndex "jupyter" headersF
      (kw.output_folder ++ "/" ++ dest ++ "/" ++ kw.index_file),
    some ⟨buildUptodate ctx kw, some (jupInitHeaders.map (fun h => h.key)), some cacheFiles,
      "build_examples:folder"⟩⟩

/-- The Jupyter branch of `gen_tasks` for one examples folder: all
notebook processing happens before the index task is yielded; the
per-file loop that follows evaluates `(render_listing, ...)`, whose name
resolution fails. -/
def jupBranch (fs : FS) (ctx : SiteCtx) (kw : Kw) (docVar : Option (List Char))
    (input dest : String) : BranchRes :=
  match jupCatFold fs kw input dest jupInitHeaders [] docVar (fs.jupCats input) with
  | .error e => ⟨[], some e, docVar⟩
  | .ok (headersF, cacheFiles, dv) =>
    match cacheFiles with
    | [] => ⟨[jupIdxTask ctx kw dest headersF cacheFiles], none, dv⟩
    | _ :: _ =>
      match resolveName "render_listing" with
      | none => ⟨[jupIdxTask ctx kw dest headersF cacheFiles],
          some (.nameError "render_listing"), dv⟩
      | some _ => ⟨[jupIdxTask ctx kw dest headersF cacheFiles], none, dv⟩

/-- Dispatch on the destination folder name, as `gen_tasks` does with
`"python" in example_folder` and its `elif` chain; an unrecognised
destination yields no tasks at all. -/
def folderTasks (fs : FS) (ctx : SiteCtx) (kw : Kw) (docVar : Option (List Char))
    (input dest : String) : BranchRes :=
  if "python".toList <:+: dest.toList then pyBranch fs ctx kw docVar input dest
  else if "matlab".toList <:+: dest.toList then mlabBranch fs ctx kw docVar input dest
  else if "jupyter".toList <:+: dest.toList then jupBranch fs ctx kw docVar input dest
  else ⟨[], none, docVar⟩

/-- Iterate `gen_tasks` over the configured folders: a raised exception
ends the generator, keeping the tasks yielded so far. -/
def genRun (fs : FS) (ctx : SiteCtx) (kw : Kw) (docVar : Option (List Char)) :
    List (String × String) → GenResult
  | [] => ⟨[], none⟩
  | (input, dest) :: rest =>
    let b := folderTasks fs ctx kw docVar input dest
    match b.error with
    | some e => ⟨b.tasks, some e⟩
    | none =>
      let r := genRun fs ctx kw b.docVar rest
      ⟨b.tasks ++ r.tasks, r.error⟩

/-- The initial `yield self.group_task()`. -/
def groupTask : Task := ⟨"build_examples", [], [], .group, none⟩

/-- The whole of `gen_tasks`: the group task followed by the per-folder
tasks, over `self.kw["examples_folders"]`. -/
def genTasks (fs : FS) (ctx : SiteCtx) (kw : Kw) : GenResult :=
  let r := genRun fs ctx kw none kw.examples_folders
  ⟨groupTask :: r.tasks, r.error⟩

/-- The duplicate-path check of `set_site`: the reported problems, with the
paths of a flagged mapping not added to the appearing set. -/
def setSiteLoop (appearing : List String) : List (String × String) → List String
  | [] => []
  | (src, dest) :: rest =>
    if src ∈ appearing ∨ dest ∈ appearing then
      (if src ∈ appearing then src else dest) :: setSiteLoop appearing rest
    else setSiteLoop (appearing ++ [src, dest]) rest

/-- The error messages `set_site` logs for `EXAMPLES_FOLDERS`; the
configuration itself is left untouched. -/
def setSiteErrors (folders : List (String × String)) : List String :=
  setSiteLoop [] folders

/-- The index-render target the spec prescribes for a folder mapping. -/
def mkIndexTarget (kw : Kw) (dest : String) : String :=
  kw.output_folder ++ "/" ++ dest ++ "/" ++ kw.index_file

/-- Whether a destination folder is recognised by one of the three
branches of `gen_tasks`. -/
def recognizedB (dest : String) : Bool :=
  decide ("python".toList <:+: dest.toList) || decide ("matlab".toList <:+: dest.toList) ||
    decide ("jupyter".toList <:+: dest.toList)

/-- Whether an action is an index render. -/
def isIndexAction : Action → Bool
  | .renderIndex _ _ _ => true
  | _ => false

/-- Whether a task is an index render with the given target. -/
def isIndexTargetB (tgt : String) (t : Task) : Bool :=
  match t.action with
  | .renderIndex _ _ tg => tg == tgt
  | _ => false

/-- Number of index-render tasks with the given target. -/
def indexTargetCount (tasks : List Task) (tgt : String) : Nat :=
  tasks.countP (isIndexTargetB tgt)

/-- Number of index-render tasks, regardless of target. -/
def indexCount (tasks : List Task) : Nat :=
  tasks.countP (fun t => isIndexAction t.action)

/-- The `summaries` mapping a category key carries in each yielded
index task. -/
def indexSummariesFor (r : GenResult) (key : String) :
    List (Option (List (String × List Char))) :=
  r.tasks.filterMap (fun t => match t.action with
    | .renderIndex _ hs _ => some ((hs.find? (fun h => h.key == key)).bind (fun h => h.summaries))
    | _ => none)

/-- The `files` list a category key carries in each yielded index task. -/
def indexFilesFor (r : GenResult) (key : String) : List (Option (List String)) :=
  r.tasks.filterMap (fun t => match t.action with
    | .renderIndex _ hs _ => some ((hs.find? (fun h => h.key == key)).bind (fun h => h.files))
    | _ => none)

/-- Whether an `Except` result is a success. -/
def exceptOk : Except Err α → Bool
  | .ok _ => true
  | .error _ => false

/-- All paths occurring as a source or destination in a folder
configuration, in order. -/
def pathsOf : List (String × String) → List String
  | [] => []
  | (s, d) :: rest => s :: d :: pathsOf rest

/-! ## Concrete fixtures used by the claim theorems -/

/-- A concrete site context. -/
def cSite : SiteCtx :=
  ⟨[("BLOG_TITLE", "Cantera")], [("tmpl_hook", "deps")], [("messages", "msg_en")],
    "nav", fun _ => ["base.tmpl"]⟩

/-- An empty filesystem. -/
def fsEmptyC : FS := ⟨fun _ => [], fun _ => [], fun _ => [], fun _ => none⟩

/-- An image lookup on which every read fails. -/
def noResolve : List Char → Option (List UInt8) := fun _ => none

/-- A configuration with one Python examples folder. -/
def cKwPy : Kw := ⟨"en", [("in", "python")], "out", "index.html", true, "cache"⟩

/-- A filesystem whose single Python example has no top-level string
literal. -/
def c1Fs : FS :=
  ⟨fun _ => [⟨"thermo", "nodoc.py", [PyNode.other]⟩], fun _ => [], fun _ => [], fun _ => none⟩

/-- A filesystem whose second Python example has no top-level string
literal while the first one does. -/
def c1FsStale : FS :=
  ⟨fun _ => [⟨"thermo", "a.py", [PyNode.strExpr "A doc".toList]⟩,
             ⟨"thermo", "b.py", [PyNode.other]⟩],
   fun _ => [], fun _ => [], fun _ => none⟩

/-- A filesystem with the three Python example files of the natural-sort
test case. -/
def c7Fs : FS :=
  ⟨fun _ => [⟨"thermo", "ex2.py", [PyNode.strExpr "A".toList]⟩,
             ⟨"thermo", "ex10.py", [PyNode.strExpr "B".toList]⟩,
             ⟨"thermo", "ex1.py", [PyNode.strExpr "C".toList]⟩],
   fun _ => [], fun _ => [], fun _ => none⟩

/-- A filesystem with one Matlab example file. -/
def c2Fs : FS :=
  ⟨fun _ => [], fun _ => [⟨"ab.m", ["% doc"]⟩], fun _ => [], fun _ => none⟩

/-- A configuration with one Matlab examples folder. -/
def cKwM : Kw := ⟨"en", [("in", "matlab")], "out", "index.html", true, "cache"⟩

/-- A configuration where `python` appears as the destination of two
folder mappings. -/
def c5Kw : Kw := ⟨"en", [("srcA", "python"), ("srcB", "python")], "out", "index.html",
  true, "cache"⟩

/-- A duplicate-free configuration whose destination names none of the
three example kinds. -/
def c6Kw : Kw := ⟨"en", [("in", "docs")], "out", "index.html", true, "cache"⟩

/-- A notebook whose first markdown cell's first line holds an interior
`#` marker. -/
def c8Nb : Notebook := ⟨[⟨"markdown", ["# #1 Intro\n".toList, "Some text".toList], []⟩]⟩

/-- The spec's own C8 example document. -/
def c8wNb : Notebook := ⟨[⟨"markdown", ["# Intro\n".toList, "Some text".toList], []⟩]⟩

/-- A notebook whose markdown cell references a missing image in markdown
notation. -/
def c4Nb : Notebook := ⟨[⟨"markdown", ["![a](missing.png)".toList], []⟩]⟩

/-! ## Claim C3: definitions -/

/-- A line that consists of exactly one self-closing HTML `img` tag with
a single `src` attribute. -/
def mkImgLine (p : List Char) : List Char :=
  "<img src=\"".toList ++ (p ++ "\"/>".toList)

/-- A line that consists of exactly one markdown image link. -/
def mkMdLine (alt p : List Char) : List Char :=
  "![".toList ++ (alt ++ ("](".toList ++ (p ++ ")".toList)))

/-- The textual mark a `data:` URI with the given declared mime type
carries. -/
def dataUriMark (mime : String) : List Char :=
  ("data:" ++ mime ++ ";base64,").toList

/-- Wellformedness of a markdown source line for the amended C3: either a
plain line the rewriting loop does not touch, or exactly one image
reference (in one of the two supported notations) whose referenced file is
readable, whose name yields a known mime type, and whose path and alt text
are free of the delimiter characters that would make the line ambiguous. -/
def GoodLine (resolve : List Char → Option (List UInt8)) (s : List Char) : Prop :=
  (¬("img".toList <:+: s) ∧ ¬("![".toList <:+: s)) ∨
  (∃ p bytes mime, s = mkImgLine p ∧ resolve p = some bytes ∧ guessMime p = some mime ∧
    '.' ∈ p ∧ '"' ∉ p ∧ '\n' ∉ p) ∨
  (∃ alt p bytes mime, s = mkMdLine alt p ∧ ¬("img".toList <:+: s) ∧
    resolve p = some bytes ∧ guessMime p = some mime ∧ '.' ∈ p ∧ '\n' ∉ p ∧
    ')' ∉ p ∧ ¬("attachment".toList <:+: p) ∧ ¬("](".toList <:+: alt) ∧ '\n' ∉ alt ∧
    '.' ∉ alt)

/-- What the amended C3 guarantees for a processed line: every way of
reading the original line as a single image reference yields a rewritten
line that is an `img` tag holding a `data:` URI whose declared mime type
is the one guessed from the referenced file name, and that no longer
contains the referenced path. -/
def RewriteOK (s s' : List Char) : Prop :=
  (∀ p, s = mkImgLine p →
    ∃ mime, guessMime p = some mime ∧ dataUriMark mime <:+: s' ∧ ¬(p <:+: s') ∧
      "<img src=\"".toList <+: s') ∧
  (∀ alt p, s = mkMdLine alt p → ¬("](".toList <:+: alt) → '\n' ∉ alt → ')' ∉ p →
    '\n' ∉ p →
    ∃ mime, guessMime p = some mime ∧ dataUriMark mime <:+: s' ∧ ¬(p <:+: s') ∧
      "<img src=\"".toList <+: s')

/-- Relation between an input cell and its cell in the processed notebook:
non-markdown cells pass through unchanged; a markdown cell keeps its type
and attachments and has each source line rewritten as `RewriteOK` states. -/
def CellRewritten (c c' : Cell) : Prop :=
  (c.cell_type ≠ "markdown" → c' = c) ∧
  (c.cell_type = "markdown" → c'.cell_type = c.cell_type ∧
    c'.attachments = c.attachments ∧ List.Forall₂ RewriteOK c.source c'.source)

/-- An image lookup holding exactly the file `x.png`. -/
def c3wResolve : List Char → Option (List UInt8) :=
  fun p => if p = "x.png".toList then some [137] else none

/-- A notebook whose markdown cell holds one well-delimited markdown image
link to the readable file `x.png`. -/
def c3wNb : Notebook := ⟨[⟨"markdown", ["![a](x.png)".toList], []⟩]⟩

/-- An image lookup holding exactly the file `foo.png`. -/
def c3Resolve : List Char → Option (List UInt8) :=
  fun p => if p = "foo.png".toList then some [137] else none

/-- A notebook whose markdown cell holds an `img` tag that is NOT
self-closing (valid HTML: `img` is a void element). -/
def c3Nb : Notebook := ⟨[⟨"markdown", ["<img src=\"foo.png\">".toList], []⟩]⟩

/-- A notebook line referencing an image file whose read fails under the
given lookup, in the sense the code detects references: either the line
contains `img` and parses to an `img` tag whose `src` cannot be read, or
it contains a markdown image link whose (non-attachment) path cannot be
read. -/
def refersUnreadableLine (resolve : List Char → Option (List UInt8)) (s : List Char) :
    Prop :=
  ("img".toList <:+: s ∧ ∃ p, lxmlParseImg s = some p ∧ resolve p = none) ∨
  (¬("img".toList <:+: s) ∧ "![".toList <:+: s ∧
    ∃ a p, mdFirstMatch s = some (a, p) ∧ ¬("attachment".toList <:+: p) ∧
      resolve p = none)

/-- Counterexample to C3: for the (readable) image reference
`<img src="foo.png">` — an HTML `img` tag without the closing slash —
processing succeeds without touching the line at all: the greedy pattern
`<img.*/>` finds no match, so the substitution leaves the cell unchanged
and the original external path `foo.png` is still contained in the
markdown cell of the cached document. -/
theorem c3_counterexample_non_self_closing :
    processNb c3Resolve c3Nb = .ok (c3Nb, "<img src=\"foo.png\">".toList) ∧
    "foo.png".toList <:+: "<img src=\"foo.png\">".toList := by
  decide

/-! ## Lemmas about the embedding pass -/

theorem processCells_doc {resolve : List Char → Option (List UInt8)} {d : List Char}
    {cells : List Cell} {out : List Cell × List Char}
    (h : processCells resolve d cells = .ok out) :
    out.2 = if d = [] then firstMdSummary cells else d := by
  induction cells generalizing d out with
  | nil =>
    rw [processCells] at h
    simp only [Except.ok.injEq] at h
    subst h
    by_cases hd : d = []
    · simp [hd, firstMdSummary]
    · simp [hd]
  | cons cell rest ih =>
    rw [processCells] at h
    by_cases hm : cell.cell_type = "markdown"
    · rw [if_pos hm] at h
      cases hcd : cellDoc d cell with
      | error e =>
        simp only [hcd] at h
        exact Except.noConfusion h
      | ok doc' =>
        simp only [hcd] at h
        cases hme : mapE (processLine resolve cell.attachments) cell.source with
        | error e =>
          simp only [hme] at h
          exact Except.noConfusion h
        | ok src' =>
          simp only [hme] at h
          cases hpc : processCells resolve doc' rest with
          | error e =>
            simp only [hpc] at h
            exact Except.noConfusion h
          | ok cd =>
            simp only [hpc] at h
            obtain ⟨cells', docF⟩ := cd
            simp only [Except.ok.injEq] at h
            have hout : out.2 = docF := by rw [← h]
            rw [hout]
            have ihh := ih hpc
            rw [cellDoc] at hcd
            by_cases hd : d = []
            · rw [if_pos hd] at hcd
              cases hs : cell.source with
              | nil =>
                rw [hs] at hcd
                exact Except.noConfusion hcd
              | cons s0 tl =>
                rw [hs] at hcd
                simp only [Except.ok.injEq] at hcd
                subst hcd
                rw [if_pos hd, firstMdSummary, if_pos hm, hs]
                show docF = if pyStrip (s0.filter (· ≠ '#')) = [] then firstMdSummary rest
                  else pyStrip (s0.filter (· ≠ '#'))
                by_cases hdd : pyStrip (s0.filter (· ≠ '#')) = []
                · rw [if_pos hdd] at ihh ⊢
                  exact ihh
                · rw [if_neg hdd] at ihh ⊢
                  exact ihh
            · rw [if_neg hd] at hcd
              simp only [Except.ok.injEq] at hcd
              subst hcd
              rw [if_neg hd] at ihh ⊢
              exact ihh
    · rw [if_neg hm] at h
      cases hpc : processCells resolve d rest with
      | error e =>
        simp only [hpc] at h
        exact Except.noConfusion h
      | ok cd =>
        simp only [hpc] at h
        obtain ⟨cells', docF⟩ := cd
        simp only [Except.ok.injEq] at h
        have hout : out.2 = docF := by rw [← h]
        rw [hout]
        have ihh := ih hpc
        rw [firstMdSummary, if_neg hm]
        exact ihh

theorem matlabLoop_eq_firstNonemptyComment (lines : List String) :
    matlabLoop lines = firstNonemptyComment lines := by
  induction lines with
  | nil => rfl
  | cons l rest ih =>
    rw [matlabLoop, firstNonemptyComment, List.filterMap_cons]
    by_cases hp : (pyStrip l.toList).head? = some '%'
    · by_cases hd : pyStrip (stripCharBoth '%' (pyStrip l.toList)) = []
      · have hc : commentContent l = none := by
          rw [commentContent, if_pos hp, if_pos hd]
        rw [hc, if_pos hp, if_pos hd, ih, firstNonemptyComment]
      · have hc : commentContent l =
            some (pyStrip (stripCharBoth '%' (pyStrip l.toList))) := by
          rw [commentContent, if_pos hp, if_neg hd]
        rw [hc, if_pos hp, if_neg hd]
        simp
    · have hc : commentContent l = none := by
        rw [commentContent, if_neg hp]
      rw [hc, if_neg hp, ih, firstNonemptyComment]

/-! ## Lemmas about the line scanners -/

theorem mdTakeUntilPat_length {pat s a b : List Char}
    (h : mdTakeUntilPat pat s = some (a, b)) (hpat : pat ≠ []) : b.length < s.length := by
  induction s generalizing a b with
  | nil => simp [mdTakeUntilPat] at h
  | cons c t ih =>
    rw [mdTakeUntilPat] at h
    by_cases hp : pat.isPrefixOf (c :: t)
    · rw [if_pos hp] at h
      simp only [Option.some.injEq, Prod.mk.injEq] at h
      obtain ⟨h1, h2⟩ := h
      subst h2
      have hlen : 1 ≤ pat.length := by
        cases pat with
        | nil => exact absurd rfl hpat
        | cons _ _ => simp
      have : ((c :: t).drop pat.length).length = (c :: t).length - pat.length := by
        simp [List.length_drop]
      simp only [List.length_cons] at *
      omega
    · rw [if_neg hp] at h
      by_cases hc : c = '\n'
      · rw [if_pos hc] at h
        exact absurd h (by simp)
      · rw [if_neg hc] at h
        cases he : mdTakeUntilPat pat t with
        | none => rw [he] at h; exact absurd h (by simp)
        | some ab =>
          rw [he] at h
          simp only [Option.map_some', Option.some.injEq, Prod.mk.injEq] at h
          obtain ⟨h1, h2⟩ := h
          subst h2
          exact Nat.lt_succ_of_lt (ih he)

theorem mdMatchAt_rest_length {s alt fname rest : List Char}
    (h : mdMatchAt s = some (alt, fname, rest)) : rest.length < s.length := by
  rw [mdMatchAt.eq_def] at h
  split at h
  case h_1 t =>
    rw [Option.bind_eq_some] at h
    obtain ⟨au, h1, h2⟩ := h
    rw [Option.map_eq_some'] at h2
    obtain ⟨fr, h2, h3⟩ := h2
    have l1 : au.2.length < t.length :=
      mdTakeUntilPat_length (by rw [← h1]) (by decide)
    have l2 : fr.2.length < au.2.length :=
      mdTakeUntilPat_length (by rw [← h2]) (by decide)
    have : rest = fr.2 := by
      have := congrArg (fun x => x.2.2) h3
      simpa using this.symm
    subst this
    simp only [List.length_cons]
    omega
  case h_2 => exact absurd h (by simp)

theorem imgGreedyEnd_length {s r : List Char} (h : imgGreedyEnd s = some r) :
    r.length < s.length := by
  induction s generalizing r with
  | nil => simp [imgGreedyEnd] at h
  | cons c t ih =>
    rw [imgGreedyEnd] at h
    have htail : (if ['/', '>'].isPrefixOf (c :: t) then some t.tail else none) = some r →
        r.length < (c :: t).length := by
      intro hx
      split at hx
      · simp only [Option.some.injEq] at hx
        subst hx
        cases t with
        | nil => simp
        | cons d u => simp only [List.tail_cons, List.length_cons]; omega
      · exact absurd hx (by simp)
    by_cases hc : c = '\n'
    · rw [if_pos hc] at h
      simp only at h
      exact htail h
    · rw [if_neg hc] at h
      cases he : imgGreedyEnd t with
      | some r' =>
        rw [he] at h
        simp only [Option.some.injEq] at h
        subst h
        exact Nat.lt_succ_of_lt (ih he)
      | none =>
        rw [he] at h
        simp only at h
        exact htail h

theorem takeUntilChar_eq {c : Char} : ∀ {p r : List Char}, c ∉ p →
    takeUntilChar c (p ++ c :: r) = some (p, r) := by
  intro p
  induction p with
  | nil =>
    intro r _
    rw [List.nil_append, takeUntilChar, if_pos rfl]
  | cons a p' ih =>
    intro r hc
    rw [List.cons_append, takeUntilChar]
    have ha : ¬(a = c) := fun h => hc (h ▸ List.mem_cons_self a p')
    rw [if_neg ha, ih (fun h => hc (List.mem_cons_of_mem _ h))]
    rfl

theorem lxmlParseImg_mk {p : List Char} (hq : '"' ∉ p) :
    lxmlParseImg (mkImgLine p) = some p := by
  have hpre : ("<img src=\"".toList.isPrefixOf (mkImgLine p)) = true :=
    List.isPrefixOf_iff_prefix.mpr ⟨p ++ "\"/>".toList, rfl⟩
  rw [lxmlParseImg, if_pos hpre]
  have hdrop : (mkImgLine p).drop 10 = p ++ '"' :: ['/', '>'] := rfl
  rw [hdrop, takeUntilChar_eq hq]
  have hcond : (['/', '>'] = ">".toList ∨ ['/', '>'] = "/>".toList) := Or.inr rfl
  show (if (['/', '>'] = ">".toList ∨ ['/', '>'] = "/>".toList) then some p else none) = some p
  rw [if_pos hcond]

theorem imgGreedyEnd_append_end : ∀ {xs : List Char}, '\n' ∉ xs →
    imgGreedyEnd (xs ++ ['/', '>']) = some [] := by
  intro xs
  induction xs with
  | nil =>
    intro _
    decide
  | cons a xs' ih =>
    intro h
    rw [List.cons_append, imgGreedyEnd]
    have ha : ¬(a = '\n') := fun hEq => h (hEq ▸ List.mem_cons_self a xs')
    rw [if_neg ha, ih (fun hx => h (List.mem_cons_of_mem _ hx))]

theorem imgSubAllF_nil (repl : List Char) (n : Nat) : imgSubAllF repl n [] = [] := by
  cases n <;> rfl

theorem mdSubAllF_nil (repl : List Char) (n : Nat) : mdSubAllF repl n [] = [] := by
  cases n <;> rfl

theorem imgSubAllF_step {repl : List Char} {fuel : Nat} {c : Char} {t : List Char}
    (hpre : ("<img".toList.isPrefixOf (c :: t)) = true)
    (hge : imgGreedyEnd ((c :: t).drop 4) = some []) :
    imgSubAllF repl (fuel + 1) (c :: t) = repl := by
  show (if "<img".toList.isPrefixOf (c :: t) then
      match imgGreedyEnd ((c :: t).drop 4) with
      | some rest => repl ++ imgSubAllF repl fuel rest
      | none => c :: imgSubAllF repl fuel t
    else c :: imgSubAllF repl fuel t) = repl
  rw [if_pos hpre, hge]
  show repl ++ imgSubAllF repl fuel [] = repl
  rw [imgSubAllF_nil, List.append_nil]

theorem imgSubAll_mk {repl p : List Char} (hnl : '\n' ∉ p) :
    imgSubAll repl (mkImgLine p) = repl := by
  have hcons : mkImgLine p = '<' :: ("img src=\"".toList ++ (p ++ "\"/>".toList)) := rfl
  rw [imgSubAll, hcons]
  apply imgSubAllF_step
  · rfl
  · have hshape : (('<' :: ("img src=\"".toList ++ (p ++ "\"/>".toList))).drop 4) =
        (" src=\"".toList ++ (p ++ ['"'])) ++ ['/', '>'] := by
      show " src=\"".toList ++ (p ++ "\"/>".toList) = (" src=\"".toList ++ (p ++ ['"'])) ++ ['/', '>']
      simp [List.append_assoc]
    rw [hshape]
    apply imgGreedyEnd_append_end
    intro hx
    rcases List.mem_append.mp hx with hx1 | hx2
    · exact absurd hx1 (by decide)
    · rcases List.mem_append.mp hx2 with hx3 | hx4
      · exact hnl hx3
      · exact absurd hx4 (by decide)

theorem mdTakeUntilPat_bracket : ∀ {alt : List Char} (rest : List Char),
    ¬("](".toList <:+: alt) → '\n' ∉ alt →
    mdTakeUntilPat "](".toList (alt ++ ("](".toList ++ rest)) = some (alt, rest) := by
  intro alt
  induction alt with
  | nil =>
    intro rest _ _
    rw [List.nil_append]
    show mdTakeUntilPat "](".toList (']' :: '(' :: rest) = some ([], rest)
    have hpre : ("](".toList.isPrefixOf (']' :: '(' :: rest)) = true :=
      List.isPrefixOf_iff_prefix.mpr ⟨rest, rfl⟩
    rw [mdTakeUntilPat, if_pos hpre]
    rfl
  | cons a alt' ih =>
    intro rest h1 h2
    rw [List.cons_append, mdTakeUntilPat]
    have hnp : ¬(("](".toList.isPrefixOf (a :: (alt' ++ ("](".toList ++ rest)))) = true) := by
      rw [List.isPrefixOf_iff_prefix]
      intro hp
      obtain ⟨t2, ht⟩ := hp
      have ht' : ']' :: '(' :: t2 = a :: (alt' ++ ("](".toList ++ rest)) := ht
      injection ht' with ha1 ht2
      cases alt' with
      | nil =>
        have ht3 : '(' :: t2 = ']' :: '(' :: rest := ht2
        injection ht3 with hb _
        exact absurd hb (by decide)
      | cons b alt'' =>
        have ht3 : '(' :: t2 = b :: (alt'' ++ ("](".toList ++ rest)) := ht2
        injection ht3 with hb _
        have heq : a :: b :: alt'' = ']' :: '(' :: alt'' := by rw [← ha1, ← hb]
        exact h1 (heq ▸ ⟨[], alt'', rfl⟩)
    rw [if_neg hnp]
    have ha : ¬(a = '\n') := fun hEq => h2 (hEq ▸ List.mem_cons_self a alt')
    rw [if_neg ha]
    have h1' : ¬("](".toList <:+: alt') := by
      intro hx
      obtain ⟨s, t, hst⟩ := hx
      refine h1 ⟨a :: s, t, ?_⟩
      simp only [List.cons_append]
      rw [hst]
    have h2' : '\n' ∉ alt' := fun hx => h2 (List.mem_cons_of_mem _ hx)
    rw [ih rest h1' h2']
    rfl

theorem mdTakeUntilPat_paren : ∀ {p : List Char}, ')' ∉ p → '\n' ∉ p →
    mdTakeUntilPat ")".toList (p ++ ")".toList) = some (p, []) := by
  intro p
  induction p with
  | nil =>
    intro _ _
    rfl
  | cons a p' ih =>
    intro h1 h2
    rw [List.cons_append, mdTakeUntilPat]
    have hnp : ¬((")".toList.isPrefixOf (a :: (p' ++ ")".toList))) = true) := by
      rw [List.isPrefixOf_iff_prefix]
      intro hp
      obtain ⟨t2, ht⟩ := hp
      have ht' : ')' :: t2 = a :: (p' ++ ")".toList) := ht
      injection ht' with ha1 _
      exact h1 (ha1 ▸ List.mem_cons_self a p')
    rw [if_neg hnp]
    have ha : ¬(a = '\n') := fun hEq => h2 (hEq ▸ List.mem_cons_self a p')
    rw [if_neg ha]
    rw [ih (fun hx => h1 (List.mem_cons_of_mem _ hx)) (fun hx => h2 (List.mem_cons_of_mem _ hx))]
    rfl

theorem mdMatchAt_mk {alt p : List Char} (h1 : ¬("](".toList <:+: alt)) (h2 : '\n' ∉ alt)
    (h3 : ')' ∉ p) (h4 : '\n' ∉ p) :
    mdMatchAt (mkMdLine alt p) = some (alt, p, []) := by
  show mdMatchAt ('!' :: '[' :: (alt ++ ("](".toList ++ (p ++ ")".toList)))) = some (alt, p, [])
  rw [mdMatchAt, mdTakeUntilPat_bracket (p ++ ")".toList) h1 h2]
  show (mdTakeUntilPat ")".toList (p ++ ")".toList)).map (fun fr => (alt, fr.1, fr.2)) =
    some (alt, p, [])
  rw [mdTakeUntilPat_paren h3 h4]
  rfl

theorem mdFirstMatch_head {s : List Char} {a f : List Char} {r : List Char} {c : Char}
    {t : List Char} (hs : s = c :: t) (h : mdMatchAt s = some (a, f, r)) :
    mdFirstMatch s = some (a, f) := by
  subst hs
  rw [mdFirstMatch, h]

theorem mdSubAllF_full {repl s a f : List Char} {fuel : Nat}
    (h : mdMatchAt s = some (a, f, [])) :
    mdSubAllF repl (fuel + 1) s = repl := by
  rw [mdSubAllF.eq_def]
  simp only [h]
  rw [mdSubAllF_nil, List.append_nil]

theorem mdSubAll_mk {repl alt p : List Char} (h1 : ¬("](".toList <:+: alt))
    (h2 : '\n' ∉ alt) (h3 : ')' ∉ p) (h4 : '\n' ∉ p) :
    mdSubAll repl (mkMdLine alt p) = repl := by
  rw [mdSubAll]
  exact mdSubAllF_full (mdMatchAt_mk h1 h2 h3 h4)

/-! ## Character-set facts about the generated data URIs -/

theorem b64Char_ne_dot (n : Nat) : b64Char n ≠ '.' := by
  have hmem : b64Alphabet.getD n 'A' ∈ 'A' :: b64Alphabet := by
    rw [List.getD_eq_getElem?_getD]
    cases hg : b64Alphabet[n]? with
    | none => exact List.mem_cons_self _ _
    | some c =>
      simp only [Option.getD_some]
      exact List.mem_cons_of_mem _ (List.getElem?_mem hg)
  intro hEq
  have hEq' : b64Alphabet.getD n 'A' = '.' := hEq
  rw [hEq'] at hmem
  exact absurd hmem (by decide)

theorem dot_not_in_b64 : ∀ (bytes : List UInt8), '.' ∉ base64Encode bytes
  | [] => by intro h; exact absurd h (List.not_mem_nil '.')
  | [a] => by
    intro h
    simp only [base64Encode, List.mem_cons, List.not_mem_nil, or_false] at h
    rcases h with h | h | h | h
    · exact b64Char_ne_dot _ h.symm
    · exact b64Char_ne_dot _ h.symm
    · exact absurd h (by decide)
    · exact absurd h (by decide)
  | [a, b] => by
    intro h
    simp only [base64Encode, List.mem_cons, List.not_mem_nil, or_false] at h
    rcases h with h | h | h | h
    · exact b64Char_ne_dot _ h.symm
    · exact b64Char_ne_dot _ h.symm
    · exact b64Char_ne_dot _ h.symm
    · exact absurd h (by decide)
  | a :: b :: c :: rest => by
    intro h
    simp only [base64Encode, List.mem_cons] at h
    rcases h with h | h | h | h | h
    · exact b64Char_ne_dot _ h.symm
    · exact b64Char_ne_dot _ h.symm
    · exact b64Char_ne_dot _ h.symm
    · exact b64Char_ne_dot _ h.symm
    · exact dot_not_in_b64 rest h

theorem guessMime_no_dot {f : List Char} {m : String} (h : guessMime f = some m) :
    '.' ∉ m.toList := by
  rw [guessMime] at h
  split at h
  · injection h with h1; subst h1; decide
  · injection h with h1; subst h1; decide
  · injection h with h1; subst h1; decide
  · injection h with h1; subst h1; decide
  · injection h with h1; subst h1; decide
  · injection h with h1; subst h1; decide
  · exact Option.noConfusion h

theorem dot_not_in_uri {p : List Char} {m : String} (hm : guessMime p = some m)
    (bytes : List UInt8) :
    '.' ∉ "data:".toList ++ mimeText p ++ ";base64,".toList ++ base64Encode bytes := by
  intro h
  rcases List.mem_append.mp h with h1 | h2
  · rcases List.mem_append.mp h1 with h3 | h4
    · rcases List.mem_append.mp h3 with h5 | h6
      · exact absurd h5 (by decide)
      · rw [mimeText, hm] at h6
        exact guessMime_no_dot hm h6
    · exact absurd h4 (by decide)
  · exact dot_not_in_b64 bytes h2

theorem dot_not_in_lxml {uri : List Char} (h : '.' ∉ uri) : '.' ∉ lxmlToString uri := by
  intro hm
  rw [lxmlToString] at hm
  rcases List.mem_append.mp hm with h1 | h2
  · rcases List.mem_append.mp h1 with h3 | h4
    · exact absurd h3 (by decide)
    · exact h h4
  · exact absurd h2 (by decide)

theorem dot_not_in_mdout {uri alt : List Char} (hu : '.' ∉ uri) (ha : '.' ∉ alt) :
    '.' ∉ "<img src=\"".toList ++ uri ++ "\" alt=\"".toList ++ alt ++ "\"/>".toList := by
  intro hm
  rcases List.mem_append.mp hm with h1 | h2
  · rcases List.mem_append.mp h1 with h3 | h4
    · rcases List.mem_append.mp h3 with h5 | h6
      · rcases List.mem_append.mp h5 with h7 | h8
        · exact absurd h7 (by decide)
        · exact hu h8
      · exact absurd h6 (by decide)
    · exact ha h4
  · exact absurd h2 (by decide)

/-! ## Shape facts about the two line forms -/

theorem mkImgLine_inj {p q : List Char} (h : mkImgLine p = mkImgLine q) : p = q := by
  have h1 : p ++ "\"/>".toList = q ++ "\"/>".toList := List.append_cancel_left h
  exact List.append_cancel_right h1

theorem mkImgLine_ne_mkMdLine {p alt q : List Char} : mkImgLine p ≠ mkMdLine alt q := by
  intro h
  have h2 : (some '<' : Option Char) = some '!' := congrArg List.head? h
  exact absurd h2 (by decide)

theorem mimeText_eq {p : List Char} {m : String} (h : guessMime p = some m) :
    mimeText p = m.toList := by
  rw [mimeText, h]

theorem dataUriMark_eq (m : String) :
    dataUriMark m = "data:".toList ++ m.toList ++ ";base64,".toList := rfl

/-! ## What `processLine` computes on each good line form -/

theorem processLine_html {resolve : List Char → Option (List UInt8)}
    {att : List (List Char × List (String × List Char))} {p : List Char}
    {bytes : List UInt8} (hres : resolve p = some bytes) (hq : '"' ∉ p)
    (hnl : '\n' ∉ p) :
    processLine resolve att (mkImgLine p) =
      .ok (lxmlToString ("data:".toList ++ mimeText p ++ ";base64,".toList ++
        base64Encode bytes)) := by
  have himg : "img".toList <:+: mkImgLine p :=
    ⟨"<".toList, " src=\"".toList ++ (p ++ "\"/>".toList), rfl⟩
  rw [processLine, if_pos himg]
  simp only [lxmlParseImg_mk hq, getB64Str, hres]
  rw [imgSubAll_mk hnl]

theorem processLine_md {resolve : List Char → Option (List UInt8)}
    {att : List (List Char × List (String × List Char))} {alt p : List Char}
    {bytes : List UInt8} (hnimg : ¬("img".toList <:+: mkMdLine alt p))
    (hres : resolve p = some bytes) (hnatt : ¬("attachment".toList <:+: p))
    (h1 : ¬("](".toList <:+: alt)) (h2 : '\n' ∉ alt) (h3 : ')' ∉ p) (h4 : '\n' ∉ p) :
    processLine resolve att (mkMdLine alt p) =
      .ok ("<img src=\"".toList ++ ("data:".toList ++ mimeText p ++ ";base64,".toList ++
        base64Encode bytes) ++ "\" alt=\"".toList ++ alt ++ "\"/>".toList) := by
  have hbang : "![".toList <:+: mkMdLine alt p :=
    ⟨[], alt ++ ("](".toList ++ (p ++ ")".toList)), rfl⟩
  have hfm : mdFirstMatch (mkMdLine alt p) = some (alt, p) :=
    mdFirstMatch_head rfl (mdMatchAt_mk h1 h2 h3 h4)
  rw [processLine, if_neg hnimg, if_pos hbang]
  simp only [hfm]
  rw [if_neg hnatt]
  simp only [getB64Str, hres]
  rw [mdSubAll_mk h1 h2 h3 h4]

/-! ## The rewrite guarantee for the two generated outputs -/

theorem rewriteOK_out_html {p : List Char} {m : String} (bytes : List UInt8)
    (hmime : guessMime p = some m) (hdot : '.' ∈ p) :
    dataUriMark m <:+: lxmlToString ("data:".toList ++ mimeText p ++ ";base64,".toList ++
      base64Encode bytes) ∧
    ¬(p <:+: lxmlToString ("data:".toList ++ mimeText p ++ ";base64,".toList ++
      base64Encode bytes)) ∧
    "<img src=\"".toList <+: lxmlToString ("data:".toList ++ mimeText p ++
      ";base64,".toList ++ base64Encode bytes) := by
  refine ⟨⟨"<img src=\"".toList, base64Encode bytes ++ "\">".toList, ?_⟩, ?_, ?_⟩
  · rw [dataUriMark_eq, mimeText_eq hmime, lxmlToString]
    simp [List.append_assoc]
  · intro hinf
    exact dot_not_in_lxml (dot_not_in_uri hmime bytes) (hinf.subset hdot)
  · refine ⟨("data:".toList ++ mimeText p ++ ";base64,".toList ++ base64Encode bytes) ++
      "\">".toList, ?_⟩
    exact (List.append_assoc _ _ _).symm

theorem rewriteOK_out_md {p alt : List Char} {m : String} (bytes : List UInt8)
    (hmime : guessMime p = some m) (hdot : '.' ∈ p) (hadot : '.' ∉ alt) :
    dataUriMark m <:+: ("<img src=\"".toList ++ ("data:".toList ++ mimeText p ++
      ";base64,".toList ++ base64Encode bytes) ++ "\" alt=\"".toList ++ alt ++
      "\"/>".toList) ∧
    ¬(p <:+: ("<img src=\"".toList ++ ("data:".toList ++ mimeText p ++
      ";base64,".toList ++ base64Encode bytes) ++ "\" alt=\"".toList ++ alt ++
      "\"/>".toList)) ∧
    "<img src=\"".toList <+: ("<img src=\"".toList ++ ("data:".toList ++ mimeText p ++
      ";base64,".toList ++ base64Encode bytes) ++ "\" alt=\"".toList ++ alt ++
      "\"/>".toList) := by
  refine ⟨⟨"<img src=\"".toList,
      base64Encode bytes ++ "\" alt=\"".toList ++ alt ++ "\"/>".toList, ?_⟩, ?_, ?_⟩
  · rw [dataUriMark_eq, mimeText_eq hmime]
    simp [List.append_assoc]
  · intro hinf
    exact dot_not_in_mdout (dot_not_in_uri hmime bytes) hadot (hinf.subset hdot)
  · refine ⟨("data:".toList ++ mimeText p ++ ";base64,".toList ++ base64Encode bytes) ++
      "\" alt=\"".toList ++ alt ++ "\"/>".toList, ?_⟩
    simp [List.append_assoc]

/-! ## Per-line, per-cell and whole-notebook soundness of the embedding -/

theorem processLine_good {resolve : List Char → Option (List UInt8)}
    {att : List (List Char × List (String × List Char))} {s : List Char}
    (hg : GoodLine resolve s) :
    ∃ s', processLine resolve att s = .ok s' ∧ RewriteOK s s' := by
  rcases hg with ⟨hni, hnb⟩ | ⟨p, bytes, m, hs, hres, hmime, hdot, hq, hnl⟩ |
    ⟨alt, p, bytes, m, hs, hnimg, hres, hmime, hdot, hnl, hpar, hnatt, hbr, hanl, hadot⟩
  · refine ⟨s, ?_, ?_, ?_⟩
    · rw [processLine, if_neg hni, if_neg hnb]
    · intro q hq2
      exfalso
      apply hni
      rw [hq2]
      exact ⟨"<".toList, " src=\"".toList ++ (q ++ "\"/>".toList), rfl⟩
    · intro alt' q hq2 _ _ _ _
      exfalso
      apply hnb
      rw [hq2]
      exact ⟨[], alt' ++ ("](".toList ++ (q ++ ")".toList)), rfl⟩
  · subst hs
    refine ⟨_, processLine_html hres hq hnl, ?_, ?_⟩
    · intro q hq2
      have hpq : p = q := mkImgLine_inj hq2
      subst hpq
      exact ⟨m, hmime, (rewriteOK_out_html bytes hmime hdot).1,
        (rewriteOK_out_html bytes hmime hdot).2.1, (rewriteOK_out_html bytes hmime hdot).2.2⟩
    · intro alt' q hq2 _ _ _ _
      exact absurd hq2 mkImgLine_ne_mkMdLine
  · subst hs
    refine ⟨_, processLine_md hnimg hres hnatt hbr hanl hpar hnl, ?_, ?_⟩
    · intro q hq2
      exact absurd hq2.symm mkImgLine_ne_mkMdLine
    · intro alt' q hq2 hbr' hanl' hpar' hnl'
      have e1 : mdMatchAt (mkMdLine alt p) = some (alt, p, []) :=
        mdMatchAt_mk hbr hanl hpar hnl
      have e2 : mdMatchAt (mkMdLine alt' q) = some (alt', q, []) :=
        mdMatchAt_mk hbr' hanl' hpar' hnl'
      rw [← hq2, e1] at e2
      injection e2 with e3
      obtain ⟨e4, e5⟩ : alt = alt' ∧ p = q :=
        ⟨congrArg Prod.fst e3, congrArg (fun x => x.2.1) e3⟩
      subst e4
      subst e5
      exact ⟨m, hmime, (rewriteOK_out_md bytes hmime hdot hadot).1,
        (rewriteOK_out_md bytes hmime hdot hadot).2.1,
        (rewriteOK_out_md bytes hmime hdot hadot).2.2⟩

theorem mapE_forall₂ {α β : Type} (f : α → Except Err β) (R : α → β → Prop) :
    ∀ {l : List α}, (∀ x ∈ l, ∃ y, f x = .ok y ∧ R x y) →
      ∃ l', mapE f l = .ok l' ∧ List.Forall₂ R l l'
  | [], _ => ⟨[], rfl, List.Forall₂.nil⟩
  | x :: t, h => by
    obtain ⟨y, hy, hR⟩ := h x (List.mem_cons_self x t)
    obtain ⟨l', hl', hF⟩ := mapE_forall₂ f R (fun z hz => h z (List.mem_cons_of_mem _ hz))
    refine ⟨y :: l', ?_, List.Forall₂.cons hR hF⟩
    simp only [mapE, hy, hl']

theorem cellDoc_ok (doc : List Char) {cell : Cell} (h : cell.source ≠ []) :
    ∃ d', cellDoc doc cell = .ok d' := by
  rw [cellDoc]
  by_cases hd : doc = []
  · rw [if_pos hd]
    cases hsrc : cell.source with
    | nil => exact absurd hsrc h
    | cons s0 rest => exact ⟨_, rfl⟩
  · rw [if_neg hd]
    exact ⟨doc, rfl⟩

theorem processCells_good {resolve : List Char → Option (List UInt8)} :
    ∀ (cells : List Cell) (doc : List Char),
      (∀ cell ∈ cells, cell.cell_type = "markdown" →
        cell.source ≠ [] ∧ ∀ s ∈ cell.source, GoodLine resolve s) →
      ∃ cells' docF, processCells resolve doc cells = .ok (cells', docF) ∧
        List.Forall₂ CellRewritten cells cells'
  | [], doc, _ => ⟨[], doc, rfl, List.Forall₂.nil⟩
  | cell :: rest, doc, h => by
    by_cases hmd : cell.cell_type = "markdown"
    · obtain ⟨hne, hlines⟩ := h cell (List.mem_cons_self cell rest) hmd
      obtain ⟨d', hd'⟩ := cellDoc_ok doc hne
      obtain ⟨src', hsrc', hF⟩ := mapE_forall₂ (processLine resolve cell.attachments)
        RewriteOK (fun s hs => processLine_good (hlines s hs))
      obtain ⟨cells', docF, hrec, hFc⟩ :=
        processCells_good rest d' (fun c hc => h c (List.mem_cons_of_mem _ hc))
      refine ⟨{ cell with source := src' } :: cells', docF, ?_, ?_⟩
      · rw [processCells, if_pos hmd]
        simp only [hd', hsrc', hrec]
      · refine List.Forall₂.cons ?_ hFc
        exact ⟨fun hne2 => absurd hmd hne2, fun _ => ⟨rfl, rfl, hF⟩⟩
    · obtain ⟨cells', docF, hrec, hFc⟩ :=
        processCells_good rest doc (fun c hc => h c (List.mem_cons_of_mem _ hc))
      refine ⟨cell :: cells', docF, ?_, List.Forall₂.cons ?_ hFc⟩
      · rw [processCells, if_neg hmd]
        simp only [hrec]
      · exact ⟨fun _ => rfl, fun hmd2 => absurd hmd2 hmd⟩

/-! ## Lemmas about task generation -/

theorem mem_pathsOf_snd {l : List (String × String)} {s d : String} (h : (s, d) ∈ l) :
    d ∈ pathsOf l := by
  induction l with
  | nil => cases h
  | cons sd rest ih =>
    obtain ⟨s', d'⟩ := sd
    rw [pathsOf]
    cases h with
    | head => exact List.mem_cons_of_mem _ (List.mem_cons_self _ _)
    | tail _ hm => exact List.mem_cons_of_mem _ (List.mem_cons_of_mem _ (ih hm))

theorem pyLoop_no_index {ctx : SiteCtx} {kw : Kw} {input dest : String} {u : Fingerprint} :
    ∀ (files : List PyFile) (hs : List CatHeader) (dv : Option (List Char)) (t : Task),
      t ∈ (pyLoop ctx kw input dest u hs dv files).tasks →
      isIndexAction t.action = false := by
  intro files
  induction files with
  | nil =>
    intro hs dv t ht
    rw [pyLoop] at ht
    cases ht
  | cons f rest ih =>
    intro hs dv t ht
    rw [pyLoop] at ht
    by_cases hc : hs.any (fun h => h.key = f.category)
    · rw [if_pos hc] at ht
      cases hd : pyFileDoc dv f.body with
      | none =>
        simp only [hd] at ht
        cases ht
      | some doc' =>
        simp only [hd] at ht
        cases ht with
        | head => rfl
        | tail _ ht2 =>
          cases ht2 with
          | head => rfl
          | tail _ ht3 => exact ih _ _ _ ht3
    · rw [if_neg hc] at ht
      cases ht

theorem jupBranch_error_of_fold_error {fs : FS} {ctx : SiteCtx} {kw : Kw}
    {dv : Option (List Char)} {input dest : String} {e : Err}
    (h : jupCatFold fs kw input dest jupInitHeaders [] dv (fs.jupCats input) = .error e) :
    (jupBranch fs ctx kw dv input dest).error = some e := by
  rw [jupBranch, h]

theorem mlabBranch_tasks (fs : FS) (ctx : SiteCtx) (kw : Kw) (dv : Option (List Char))
    (input dest : String) :
    (mlabBranch fs ctx kw dv input dest).tasks =
      [mlabIdxTask ctx kw dest (mlabEligible (fs.mlabFiles input)) input] := by
  have hres : resolveName "render_listing" = none := by decide
  rw [mlabBranch]
  cases hf : mlabEligible (fs.mlabFiles input) with
  | nil => simp only [hf]
  | cons a l => simp only [hf, hres]

theorem mlabBranch_error_nonempty (fs : FS) (ctx : SiteCtx) (kw : Kw)
    (dv : Option (List Char)) (input dest : String)
    (hne : mlabEligible (fs.mlabFiles input) ≠ []) :
    (mlabBranch fs ctx kw dv input dest).error = some (.nameError "render_listing") := by
  have hres : resolveName "render_listing" = none := by decide
  rw [mlabBranch]
  cases hf : mlabEligible (fs.mlabFiles input) with
  | nil => exact absurd hf hne
  | cons a l => simp only [hf, hres]

theorem jupBranch_tasks_ok {fs : FS} {ctx : SiteCtx} {kw : Kw} {dv : Option (List Char)}
    {input dest : String} {hd : List CatHeader} {cf : List String} {dv' : Option (List Char)}
    (hcf : jupCatFold fs kw input dest jupInitHeaders [] dv (fs.jupCats input) =
      .ok (hd, cf, dv')) :
    (jupBranch fs ctx kw dv input dest).tasks = [jupIdxTask ctx kw dest hd cf] := by
  have hres : resolveName "render_listing" = none := by decide
  rw [jupBranch, hcf]
  cases cf with
  | nil => rfl
  | cons a l => simp only [hres]

theorem jupBranch_error_nonempty {fs : FS} {ctx : SiteCtx} {kw : Kw} {dv : Option (List Char)}
    {input dest : String} {hd : List CatHeader} {cf : List String} {dv' : Option (List Char)}
    (hcf : jupCatFold fs kw input dest jupInitHeaders [] dv (fs.jupCats input) =
      .ok (hd, cf, dv'))
    (hne : cf ≠ []) :
    (jupBranch fs ctx kw dv input dest).error = some (.nameError "render_listing") := by
  have hres : resolveName "render_listing" = none := by decide
  rw [jupBranch, hcf]
  cases cf with
  | nil => exact absurd rfl hne
  | cons a l => simp only [hres]

/-- Under a completed (exception-free) generation, the tasks of one folder
are a list of non-index tasks followed by exactly one index task whose
render target is `mkIndexTarget kw dest` when the destination is
recognised, and nothing at all otherwise. -/
theorem folderTasks_shape (fs : FS) (ctx : SiteCtx) (kw : Kw) (dv : Option (List Char))
    (input dest : String)
    (herr : (folderTasks fs ctx kw dv input dest).error = none) :
    (recognizedB dest = true →
      ∃ ts idxT, (folderTasks fs ctx kw dv input dest).tasks = ts ++ [idxT] ∧
        (∀ t ∈ ts, isIndexAction t.action = false) ∧
        ∃ ex hs, idxT.action = Action.renderIndex ex hs (mkIndexTarget kw dest)) ∧
    (recognizedB dest = false → (folderTasks fs ctx kw dv input dest).tasks = []) := by
  by_cases hpy : "python".toList <:+: dest.toList
  · have hft : folderTasks fs ctx kw dv input dest = pyBranch fs ctx kw dv input dest := by
      rw [folderTasks, if_pos hpy]
    have hrec : recognizedB dest = true := by
      simp only [recognizedB, Bool.or_eq_true, decide_eq_true_eq]
      exact Or.inl (Or.inl hpy)
    rw [hft] at herr ⊢
    rw [hrec]
    constructor
    · intro _
      rw [pyBranch] at herr ⊢
      cases he : (pyLoop ctx kw input dest
          (pyUpt2 ctx kw ((fs.pyFiles input).map (pyPath input)) "build_examples:source")
          pyInitHeaders dv (fs.pyFiles input)).error with
      | some e =>
        simp only [he] at herr
        exact Option.noConfusion herr
      | none =>
        simp only [he]
        refine ⟨_, _, rfl, ?_, "python", _, rfl⟩
        intro t ht
        exact pyLoop_no_index _ _ _ _ ht
    · intro hco
      exact Bool.noConfusion hco
  · by_cases hml : "matlab".toList <:+: dest.toList
    · have hft : folderTasks fs ctx kw dv input dest = mlabBranch fs ctx kw dv input dest := by
        rw [folderTasks, if_neg hpy, if_pos hml]
      have hrec : recognizedB dest = true := by
        simp only [recognizedB, Bool.or_eq_true, decide_eq_true_eq]
        exact Or.inl (Or.inr hml)
      rw [hft]
      rw [hrec]
      constructor
      · intro _
        have hres : resolveName "render_listing" = none := by decide
        have htasks : (mlabBranch fs ctx kw dv input dest).tasks =
            [mlabIdxTask ctx kw dest (mlabEligible (fs.mlabFiles input)) input] := by
          rw [mlabBranch]
          cases hf : mlabEligible (fs.mlabFiles input) with
          | nil => simp only [hf]
          | cons a l => simp only [hf, hres]
        refine ⟨[], mlabIdxTask ctx kw dest (mlabEligible (fs.mlabFiles input)) input,
          by simpa using htasks, ?_, "matlab", _, rfl⟩
        intro t ht
        cases ht
      · intro hco
        exact Bool.noConfusion hco
    · by_cases hjp : "jupyter".toList <:+: dest.toList
      · have hft : folderTasks fs ctx kw dv input dest = jupBranch fs ctx kw dv input dest := by
          rw [folderTasks, if_neg hpy, if_neg hml, if_pos hjp]
        have hrec : recognizedB dest = true := by
          simp only [recognizedB, Bool.or_eq_true, decide_eq_true_eq]
          exact Or.inr hjp
        rw [hft] at herr ⊢
        rw [hrec]
        constructor
        · intro _
          have hres : resolveName "render_listing" = none := by decide
          cases hcf : jupCatFold fs kw input dest jupInitHeaders [] dv (fs.jupCats input) with
          | error e =>
            rw [jupBranch_error_of_fold_error hcf] at herr
            exact Option.noConfusion herr
          | ok out =>
            obtain ⟨hd, cf, dv'⟩ := out
            have htasks : (jupBranch fs ctx kw dv input dest).tasks =
                [jupIdxTask ctx kw dest hd cf] := by
              rw [jupBranch, hcf]
              cases cf with
              | nil => rfl
              | cons a l => simp only [hres]
            refine ⟨[], jupIdxTask ctx kw dest hd cf, by simpa using htasks, ?_,
              "jupyter", _, rfl⟩
            intro t ht
            cases ht
        · intro hco
          exact Bool.noConfusion hco
      · have hft : (folderTasks fs ctx kw dv input dest).tasks = [] := by
          rw [folderTasks, if_neg hpy, if_neg hml, if_neg hjp]
        have hrec : recognizedB dest = false := by
          simp only [recognizedB, Bool.or_eq_false_iff, decide_eq_false_iff_not]
          exact ⟨⟨hpy, hml⟩, hjp⟩
        rw [hrec]
        constructor
        · intro hco
          exact Bool.noConfusion hco
        · intro _
          exact hft

theorem isIndexTargetB_false {t : Task} {tgt : String}
    (h : isIndexAction t.action = false) : isIndexTargetB tgt t = false := by
  cases hact : t.action <;> simp_all [isIndexAction, isIndexTargetB]

theorem folderTasks_indexCount (fs : FS) (ctx : SiteCtx) (kw : Kw) (dv : Option (List Char))
    (input dest : String) (herr : (folderTasks fs ctx kw dv input dest).error = none) :
    indexCount (folderTasks fs ctx kw dv input dest).tasks =
      if recognizedB dest then 1 else 0 := by
  obtain ⟨h1, h2⟩ := folderTasks_shape fs ctx kw dv input dest herr
  cases hrec : recognizedB dest with
  | true =>
    obtain ⟨ts, idxT, heq, hts, ex, hs, hact⟩ := h1 hrec
    rw [heq, indexCount, List.countP_append]
    have h0 : ts.countP (fun t => isIndexAction t.action) = 0 := by
      rw [List.countP_eq_zero]
      intro t ht
      simp [hts t ht]
    rw [h0]
    simp [isIndexAction, hact]
  | false =>
    rw [h2 hrec]
    rfl

theorem folderTasks_indexTargetCount (fs : FS) (ctx : SiteCtx) (kw : Kw)
    (dv : Option (List Char)) (input dest : String)
    (herr : (folderTasks fs ctx kw dv input dest).error = none) (tgt : String) :
    indexTargetCount (folderTasks fs ctx kw dv input dest).tasks tgt =
      if recognizedB dest && (mkIndexTarget kw dest == tgt) then 1 else 0 := by
  obtain ⟨h1, h2⟩ := folderTasks_shape fs ctx kw dv input dest herr
  cases hrec : recognizedB dest with
  | true =>
    obtain ⟨ts, idxT, heq, hts, ex, hs, hact⟩ := h1 hrec
    rw [heq, indexTargetCount, List.countP_append]
    have h0 : ts.countP (isIndexTargetB tgt) = 0 := by
      rw [List.countP_eq_zero]
      intro t ht
      simp [isIndexTargetB_false (hts t ht)]
    rw [h0]
    have hsing : isIndexTargetB tgt idxT = (mkIndexTarget kw dest == tgt) := by
      rw [isIndexTargetB, hact]
    simp only [List.countP_cons, List.countP_nil, hsing, Bool.true_and]
    cases mkIndexTarget kw dest == tgt <;> rfl
  | false =>
    rw [h2 hrec]
    rfl

theorem genRun_counts (fs : FS) (ctx : SiteCtx) (kw : Kw) :
    ∀ (folders : List (String × String)) (dv : Option (List Char)),
      (genRun fs ctx kw dv folders).error = none →
      indexCount (genRun fs ctx kw dv folders).tasks =
          folders.countP (fun sd => recognizedB sd.2) ∧
      ∀ tgt, indexTargetCount (genRun fs ctx kw dv folders).tasks tgt =
          folders.countP (fun sd => recognizedB sd.2 && (mkIndexTarget kw sd.2 == tgt)) := by
  intro folders
  induction folders with
  | nil =>
    intro dv _
    exact ⟨rfl, fun tgt => rfl⟩
  | cons sd rest ih =>
    intro dv herr
    obtain ⟨input, dest⟩ := sd
    rw [genRun] at herr ⊢
    cases hb : (folderTasks fs ctx kw dv input dest).error with
    | some e =>
      simp only [hb] at herr
      exact Option.noConfusion herr
    | none =>
      simp only [hb] at herr ⊢
      have ihh := ih (folderTasks fs ctx kw dv input dest).docVar herr
      constructor
      · rw [indexCount, List.countP_append, List.countP_cons]
        have hfc := folderTasks_indexCount fs ctx kw dv input dest hb
        rw [indexCount] at hfc
        rw [hfc]
        have := ihh.1
        rw [indexCount] at this
        rw [this]
        cases recognizedB dest <;> simp [Nat.add_comm]
      · intro tgt
        rw [indexTargetCount, List.countP_append, List.countP_cons]
        have hfc := folderTasks_indexTargetCount fs ctx kw dv input dest hb tgt
        rw [indexTargetCount] at hfc
        rw [hfc]
        have := ihh.2 tgt
        rw [indexTargetCount] at this
        rw [this]
        cases recognizedB dest && (mkIndexTarget kw dest == tgt) <;> simp [Nat.add_comm]

theorem mkIndexTarget_inj {kw : Kw} {d₁ d₂ : String}
    (h : mkIndexTarget kw d₁ = mkIndexTarget kw d₂) : d₁ = d₂ := by
  rw [mkIndexTarget, mkIndexTarget] at h
  have happ : ∀ s t : String, (s ++ t).toList = s.toList ++ t.toList := fun _ _ => rfl
  have hl := congrArg String.toList h
  rw [happ, happ, happ, happ, happ, happ, happ, happ] at hl
  have h2 := List.append_cancel_right hl
  have h3 := List.append_cancel_right h2
  exact String.ext (List.append_cancel_left h3)

theorem countP_recog_target {kw : Kw} :
    ∀ (folders : List (String × String)) (s d : String),
      (s, d) ∈ folders → (pathsOf folders).Nodup →
      folders.countP
          (fun sd => recognizedB sd.2 && (mkIndexTarget kw sd.2 == mkIndexTarget kw d)) =
        if recognizedB d then 1 else 0 := by
  intro folders
  induction folders with
  | nil =>
    intro s d h
    cases h
  | cons sd' rest ih =>
    intro s d hmem hnd
    cases hmem with
    | head =>
      rw [pathsOf] at hnd
      have hd' : d ∉ pathsOf rest := (List.nodup_cons.mp (List.nodup_cons.mp hnd).2).1
      rw [List.countP_cons]
      have hzero : rest.countP
          (fun sd => recognizedB sd.2 && (mkIndexTarget kw sd.2 == mkIndexTarget kw d)) = 0 := by
        rw [List.countP_eq_zero]
        intro a ha
        obtain ⟨ax, ay⟩ := a
        have hy : ay ∈ pathsOf rest := mem_pathsOf_snd ha
        have hne : ay ≠ d := fun hEq => hd' (hEq ▸ hy)
        have hf : (mkIndexTarget kw ay == mkIndexTarget kw d) = false := by
          rw [beq_eq_false_iff_ne]
          intro hc
          exact hne (mkIndexTarget_inj hc)
        simp [hf]
      rw [hzero]
      simp only [beq_self_eq_true, Bool.and_true]
      cases recognizedB d <;> rfl
    | tail _ hmem2 =>
      obtain ⟨s', d'⟩ := sd'
      rw [pathsOf] at hnd
      have hndr : (pathsOf rest).Nodup :=
        (List.nodup_cons.mp (List.nodup_cons.mp hnd).2).2
      have hd' : d' ∉ pathsOf rest := (List.nodup_cons.mp (List.nodup_cons.mp hnd).2).1
      have hy : d ∈ pathsOf rest := mem_pathsOf_snd hmem2
      have hne : d' ≠ d := fun hEq => hd' (hEq ▸ hy)
      rw [List.countP_cons]
      have hf : (mkIndexTarget kw d' == mkIndexTarget kw d) = false := by
        rw [beq_eq_false_iff_ne]
        intro hc
        exact hne (mkIndexTarget_inj hc)
      rw [ih s d hmem2 hndr]
      simp [hf]

theorem setSiteLoop_skip_clean :
    ∀ (pre : List (String × String)) (app : List String) (rest : List (String × String)),
      (pathsOf pre).Nodup → (∀ x ∈ pathsOf pre, x ∉ app) →
      setSiteLoop app (pre ++ rest) = setSiteLoop (app ++ pathsOf pre) rest := by
  intro pre
  induction pre with
  | nil =>
    intro app rest _ _
    simp [pathsOf]
  | cons sd pre' ih =>
    intro app rest hnd hdisj
    obtain ⟨s, d⟩ := sd
    rw [pathsOf] at hnd hdisj
    have hs : s ∉ app := hdisj s (List.mem_cons_self _ _)
    have hd : d ∉ app := hdisj d (List.mem_cons_of_mem _ (List.mem_cons_self _ _))
    rw [List.cons_append, setSiteLoop]
    rw [if_neg (by rintro (h | h); exacts [hs h, hd h])]
    have hnd2 := List.nodup_cons.mp hnd
    have hnd3 := List.nodup_cons.mp hnd2.2
    rw [ih (app ++ [s, d]) rest hnd3.2 ?_]
    · congr 1
      rw [pathsOf]
      simp
    · intro x hx
      rw [List.mem_append]
      rintro (hxa | hxb)
      · exact hdisj x (List.mem_cons_of_mem _ (List.mem_cons_of_mem _ hx)) hxa
      · have hxb2 : x = s ∨ x = d := by simpa using hxb
        cases hxb2 with
        | inl hxe =>
          have : s ∉ pathsOf pre' := fun hc =>
            hnd2.1 (List.mem_cons_of_mem _ hc)
          exact this (hxe ▸ hx)
        | inr hxe =>
          exact hnd3.1 (hxe ▸ hx)

theorem setSiteErrors_dup {folders pre post : List (String × String)} {s d : String}
    (heq : folders = pre ++ (s, d) :: post)
    (hdup : s ∈ pathsOf pre ∨ d ∈ pathsOf pre)
    (hnd : (pathsOf pre).Nodup) : setSiteErrors folders ≠ [] := by
  rw [heq, setSiteErrors,
    setSiteLoop_skip_clean pre [] ((s, d) :: post) hnd (by intro x _ hc; cases hc)]
  rw [List.nil_append, setSiteLoop, if_pos hdup]
  exact List.cons_ne_nil _ _

/-! ## Claim C1 -/

/-- C1: the claim says summary extraction is best-effort — a Python file
with no top-level string literal gets the empty string as its summary and
never an error.  The code instead leaves the loop variable `doc` untouched:
on the first such file the generator raises `UnboundLocalError` (first
conjunct: the evaluation at the failing input), and when an earlier file
had set `doc`, the stale summary of that file is recorded instead of the
empty string (second conjunct: `b.py` gets the summary of `a.py`). -/
theorem c1_summary_extraction_raises :
    (genTasks c1Fs cSite cKwPy).error = some (Err.unboundLocal "doc") ∧
    indexSummariesFor (genTasks c1FsStale cSite cKwPy) "thermo" =
      [some [("a.py", "A doc.".toList), ("b.py", "A doc.".toList)]] := by
  decide

/-! ## Claim C7 -/

/-- C7: files in a category's final list are ordered by natural sort —
through the pipeline, the index task of a folder holding `ex2.py`,
`ex10.py`, `ex1.py` lists them as `ex1.py, ex2.py, ex10.py`; a plain
lexical sort of the same names would give `ex1.py, ex10.py, ex2.py`. -/
theorem c7_natural_sort_order :
    indexFilesFor (genTasks c7Fs cSite cKwPy) "thermo" =
      [some ["in/thermo/ex1.py", "in/thermo/ex2.py", "in/thermo/ex10.py"]] ∧
    natsorted ["ex2.py", "ex10.py", "ex1.py"] = ["ex1.py", "ex2.py", "ex10.py"] ∧
    lexSorted ["ex2.py", "ex10.py", "ex1.py"] = ["ex1.py", "ex10.py", "ex2.py"] := by
  decide

/-! ## Claim C2 -/

/-- Counterexample to C2 as stated: for a Matlab folder with one example
file, no HTML-render task for the file is ever YIELDED at all (the yielded
tasks hold no `render_listing` nor `render_example` action) — instead the
name `render_listing` is already resolved while the generator builds the
action tuple of the first per-file task, so the generator raises
`NameError` at task-generation time, before the task could be yielded or
executed. -/
theorem c2_counterexample_no_task_yielded :
    (genTasks c2Fs cSite cKwM).error = some (Err.nameError "render_listing") ∧
    ((genTasks c2Fs cSite cKwM).tasks.countP (fun t => match t.action with
      | Action.renderListing _ _ => true
      | Action.renderExample _ _ => true
      | _ => false)) = 0 ∧
    resolveName "render_listing" = none ∧
    resolveName "render_example" = some "render_example" := by
  decide

/-- C2 (amended): `render_listing` is not defined anywhere in the module
(the only defined renderer is `render_example`), and for every Matlab or
Jupyter examples folder with at least one eligible file the name-resolution
error is raised while the task is being constructed: folder generation ends
with `NameError` and every task it yielded is the index task — no per-file
HTML-render task (and hence no HTML page) is ever produced. -/
theorem c2_render_listing_unresolvable :
    resolveName "render_listing" = none ∧
    resolveName "render_example" = some "render_example" ∧
    (∀ (fs : FS) (ctx : SiteCtx) (kw : Kw) (dv : Option (List Char)) (input dest : String),
      ¬("python".toList <:+: dest.toList) → "matlab".toList <:+: dest.toList →
      mlabEligible (fs.mlabFiles input) ≠ [] →
      (folderTasks fs ctx kw dv input dest).error = some (.nameError "render_listing") ∧
      ∀ t ∈ (folderTasks fs ctx kw dv input dest).tasks, isIndexAction t.action = true) ∧
    (∀ (fs : FS) (ctx : SiteCtx) (kw : Kw) (dv : Option (List Char)) (input dest : String)
        (hd : List CatHeader) (cf : List String) (dv' : Option (List Char)),
      ¬("python".toList <:+: dest.toList) → ¬("matlab".toList <:+: dest.toList) →
      "jupyter".toList <:+: dest.toList →
      jupCatFold fs kw input dest jupInitHeaders [] dv (fs.jupCats input) =
        .ok (hd, cf, dv') →
      cf ≠ [] →
      (folderTasks fs ctx kw dv input dest).error = some (.nameError "render_listing") ∧
      ∀ t ∈ (folderTasks fs ctx kw dv input dest).tasks, isIndexAction t.action = true) := by
  refine ⟨by decide, by decide, ?_, ?_⟩
  · intro fs ctx kw dv input dest hpy hml hne
    have hft : folderTasks fs ctx kw dv input dest = mlabBranch fs ctx kw dv input dest := by
      rw [folderTasks, if_neg hpy, if_pos hml]
    rw [hft]
    refine ⟨mlabBranch_error_nonempty fs ctx kw dv input dest hne, ?_⟩
    intro t ht
    rw [mlabBranch_tasks fs ctx kw dv input dest] at ht
    cases ht with
    | head => rfl
    | tail _ h2 => cases h2
  · intro fs ctx kw dv input dest hd cf dv' hpy hml hjp hcf hne
    have hft : folderTasks fs ctx kw dv input dest = jupBranch fs ctx kw dv input dest := by
      rw [folderTasks, if_neg hpy, if_neg hml, if_pos hjp]
    rw [hft]
    refine ⟨jupBranch_error_nonempty hcf hne, ?_⟩
    intro t ht
    rw [jupBranch_tasks_ok hcf] at ht
    cases ht with
    | head => rfl
    | tail _ h2 => cases h2

/-- Witness for the amended C2 at the concrete Matlab configuration. -/
theorem c2_render_listing_unresolvable_witness :
    (folderTasks c2Fs cSite cKwM none "in" "matlab").error =
      some (Err.nameError "render_listing") :=
  (c2_render_listing_unresolvable.2.2.1 c2Fs cSite cKwM none "in" "matlab"
    (by decide) (by decide) (by decide)).1

/-! ## Claim C5 -/

/-- Counterexample to C5: with a duplicated destination the violation is
reported (first conjunct), but the offending mapping is NOT skipped —
the generator still yields an index task for both mappings (the index
count is 2, not 1), and generation completes without error. -/
theorem c5_counterexample_duplicate_not_skipped :
    setSiteErrors c5Kw.examples_folders = ["python"] ∧
    indexCount (genTasks fsEmptyC cSite c5Kw).tasks = 2 ∧
    (genTasks fsEmptyC cSite c5Kw).error = none := by
  decide

/-- C5 (amended): when a mapping repeats a path of the (duplicate-free)
mappings before it, `set_site` reports the violation, but the mapping is
only dropped from the duplicate-tracking set — task generation still
iterates over every configured mapping, so (when generation completes
without an exception) the number of yielded index tasks equals the number
of recognised mappings counted WITH multiplicity. -/
theorem c5_duplicate_reported_but_processed (fs : FS) (ctx : SiteCtx) (kw : Kw)
    (pre post : List (String × String)) (s d : String)
    (hsplit : kw.examples_folders = pre ++ (s, d) :: post)
    (hdup : s ∈ pathsOf pre ∨ d ∈ pathsOf pre)
    (hnd : (pathsOf pre).Nodup)
    (herr : (genTasks fs ctx kw).error = none) :
    setSiteErrors kw.examples_folders ≠ [] ∧
    indexCount (genTasks fs ctx kw).tasks =
      kw.examples_folders.countP (fun sd => recognizedB sd.2) := by
  constructor
  · exact setSiteErrors_dup hsplit hdup hnd
  · have hge : (genRun fs ctx kw none kw.examples_folders).error = none := herr
    have hcount := (genRun_counts fs ctx kw kw.examples_folders none hge).1
    have hgt : (genTasks fs ctx kw).tasks =
        groupTask :: (genRun fs ctx kw none kw.examples_folders).tasks := rfl
    rw [hgt, indexCount, List.countP_cons]
    rw [indexCount] at hcount
    rw [hcount]
    rfl

/-- Witness for the amended C5 at a concrete duplicated configuration. -/
theorem c5_duplicate_reported_but_processed_witness :
    setSiteErrors c5Kw.examples_folders ≠ [] ∧
    indexCount (genTasks fsEmptyC cSite c5Kw).tasks =
      c5Kw.examples_folders.countP (fun sd => recognizedB sd.2) :=
  c5_duplicate_reported_but_processed fsEmptyC cSite c5Kw
    [("srcA", "python")] [] "srcB" "python" rfl (Or.inr (by decide)) (by decide) (by decide)

/-! ## Claim C6 -/

/-- Counterexample to C6: a duplicate-free pair whose destination is not
recognised by any of the three branches yields NO index task at all (the
claim says every pair yields exactly one). -/
theorem c6_counterexample_unrecognized_folder :
    (pathsOf c6Kw.examples_folders).Nodup ∧
    (genTasks fsEmptyC cSite c6Kw).error = none ∧
    indexTargetCount (genTasks fsEmptyC cSite c6Kw).tasks (mkIndexTarget c6Kw "docs") = 0 := by
  decide

/-- C6 (amended): for a duplicate-free configuration whose generation
completes without an exception, a pair whose destination names one of the
three kinds (`python`/`matlab`/`jupyter` as a substring) yields exactly
one index-render task with target
`<output_folder>/<dest>/<index_file>`, and a pair with an unrecognised
destination yields none. -/
theorem c6_index_task_per_recognized_pair (fs : FS) (ctx : SiteCtx) (kw : Kw)
    (hnd : (pathsOf kw.examples_folders).Nodup)
    (herr : (genTasks fs ctx kw).error = none) (s d : String)
    (hmem : (s, d) ∈ kw.examples_folders) :
    indexTargetCount (genTasks fs ctx kw).tasks (mkIndexTarget kw d) =
      if recognizedB d then 1 else 0 := by
  have hge : (genRun fs ctx kw none kw.examples_folders).error = none := herr
  have hcount := (genRun_counts fs ctx kw kw.examples_folders none hge).2 (mkIndexTarget kw d)
  have hgt : (genTasks fs ctx kw).tasks =
      groupTask :: (genRun fs ctx kw none kw.examples_folders).tasks := rfl
  rw [hgt, indexTargetCount, List.countP_cons]
  rw [indexTargetCount] at hcount
  rw [hcount, countP_recog_target kw.examples_folders s d hmem hnd]
  rfl

/-- Witness for the amended C6: the concrete Python folder pair yields
exactly one index task at the prescribed target. -/
theorem c6_index_task_per_recognized_pair_witness :
    indexTargetCount (genTasks fsEmptyC cSite cKwPy).tasks (mkIndexTarget cKwPy "python") =
      if recognizedB "python" then 1 else 0 :=
  c6_index_task_per_recognized_pair fsEmptyC cSite cKwPy (by decide) (by decide)
    "in" "python" (by decide)

/-! ## Claim C8 -/

/-- Counterexample to C8: the code removes every `#` character of the
first line (`replace("#", "")`), not only the leading markup markers —
on the first line `# #1 Intro` it records `1 Intro` where stripping only
the leading markers gives `#1 Intro`. -/
theorem c8_counterexample_interior_marker :
    processNb noResolve c8Nb = .ok (c8Nb, "1 Intro".toList) ∧
    specStripLeadingMarkers "# #1 Intro\n".toList = "#1 Intro".toList ∧
    ("1 Intro".toList : List Char) ≠ "#1 Intro".toList := by
  decide

/-- C8 (amended): when processing succeeds, the recorded summary is the
first line of the first markdown cell whose first line is non-empty after
removing every `#` character and stripping whitespace (not merely the
leading markers, and skipping markdown cells whose processed first line
is empty). -/
theorem c8_summary_characterization (resolve : List Char → Option (List UInt8))
    (nb nb' : Notebook) (doc : List Char)
    (h : processNb resolve nb = .ok (nb', doc)) : doc = firstMdSummary nb.cells := by
  rw [processNb] at h
  cases hpc : processCells resolve [] nb.cells with
  | error e =>
    simp only [hpc] at h
    exact Except.noConfusion h
  | ok cd =>
    simp only [hpc] at h
    obtain ⟨cells', docF⟩ := cd
    simp only [Except.ok.injEq, Prod.mk.injEq] at h
    have hdoc : doc = docF := h.2.symm
    have := processCells_doc hpc
    simp only [if_pos rfl] at this
    rw [hdoc]
    exact this

/-- Witness for the amended C8 on the spec's example: the summary of a
document whose first markdown cell is `"# Intro\nSome text"` is `Intro`. -/
theorem c8_summary_characterization_witness :
    "Intro".toList = firstMdSummary c8wNb.cells :=
  c8_summary_characterization noResolve c8wNb c8wNb "Intro".toList (by decide)

/-! ## Claim C9 -/

/-- Counterexample to C9: the claim says the summary equals the first
contiguous run of comment lines at the top of the file, "not a single
comment line found anywhere in the file".  For a file whose first line is
code, the run at the top is empty, yet the code produces the content of
the `%` line found further down. -/
theorem c9_counterexample_comment_after_code :
    matlabSummary "ab.m" ["x = 1", "% Hello"] = "Hello".toList ∧
    specMatlabTopRun ["x = 1", "% Hello"] = [] ∧
    ("Hello".toList : List Char) ≠ [] := by
  decide

/-- C9 (amended): the Matlab summary is the content of the first single
comment line with non-empty content, scanning every line of the file
from the top (comment lines after code lines included), with the
restated-filename heuristic applied — never a multi-line run: a file
whose top holds the run `% First`, `% Second` gets the summary `First`
alone. -/
theorem c9_summary_single_comment_line :
    (∀ (fname : String) (lines : List String),
      matlabSummary fname lines = matlabStripName fname (firstNonemptyComment lines)) ∧
    matlabSummary "sample.m" ["% First", "% Second"] = "First".toList := by
  constructor
  · intro fname lines
    rw [matlabSummary, matlabLoop_eq_firstNonemptyComment]
  · decide

/-! ## Claim C3 -/

/-- C3 (amended): for every structured notebook each of whose markdown-cell
lines is either free of image references or a single well-delimited image
reference — a self-closing HTML `img` tag, or a markdown image link whose
alt text and path avoid the delimiter characters — to a readable image
with a recognised mime type, the embedding step succeeds, non-markdown
cells pass through unchanged, and every markdown line is rewritten so
that any image reference it carried becomes an `img` tag holding a
`data:` URI whose declared mime type is the one guessed from the
referenced file name, with the original external path no longer contained
in the rewritten line.  (Unrestricted, the claim is false: a non-self-closing
`<img ...>` reference is left untouched, see the counterexample.) -/
theorem c3_embedding_rewrites {resolve : List Char → Option (List UInt8)} {nb : Notebook}
    (hgood : ∀ cell ∈ nb.cells, cell.cell_type = "markdown" →
      cell.source ≠ [] ∧ ∀ s ∈ cell.source, GoodLine resolve s) :
    ∃ nb' doc, processNb resolve nb = .ok (nb', doc) ∧
      List.Forall₂ CellRewritten nb.cells nb'.cells := by
  obtain ⟨cells', docF, hrun, hF⟩ := processCells_good nb.cells [] hgood
  refine ⟨⟨cells'⟩, docF, ?_, hF⟩
  rw [processNb]
  simp only [hrun]

/-- Witness for C3 at a one-cell notebook holding the markdown image link
`![a](x.png)` to the readable image `x.png`. -/
theorem c3_embedding_rewrites_witness :
    ∃ nb' doc, processNb c3wResolve c3wNb = .ok (nb', doc) ∧
      List.Forall₂ CellRewritten c3wNb.cells nb'.cells :=
  c3_embedding_rewrites (by
    intro cell hc hmd
    cases hc with
    | tail _ h => cases h
    | head =>
      refine ⟨by decide, ?_⟩
      intro s hs
      cases hs with
      | tail _ h => cases h
      | head =>
        exact Or.inr (Or.inr ⟨"a".toList, "x.png".toList, [137], "image/png",
          by decide, by decide, by decide, by decide, by decide, by decide,
          by decide, by decide, by decide, by decide, by decide⟩))

/-! ## Claim C4 -/

theorem processLine_error_of_unreadable {resolve : List Char → Option (List UInt8)}
    {att : List (List Char × List (String × List Char))} {s : List Char}
    (h : refersUnreadableLine resolve s) :
    processLine resolve att s = .error .fileNotFound := by
  cases h with
  | inl h =>
    obtain ⟨himg, p, hp, hr⟩ := h
    rw [processLine, if_pos himg]
    simp only [hp, getB64Str, hr]
  | inr h =>
    obtain ⟨himg, hmd, a, p, hm, hatt, hr⟩ := h
    rw [processLine, if_neg himg, if_pos hmd]
    simp only [hm, if_neg hatt, getB64Str, hr]

theorem mapE_ok_mem {f : α → Except Err β} {l : List α} {l' : List β} {x : α}
    (h : mapE f l = .ok l') (hx : x ∈ l) : ∃ y, f x = .ok y := by
  induction l generalizing l' with
  | nil => cases hx
  | cons a t ih =>
    rw [mapE] at h
    cases hfa : f a with
    | error e =>
      rw [hfa] at h
      exact Except.noConfusion h
    | ok y =>
      rw [hfa] at h
      cases hmt : mapE f t with
      | error e =>
        rw [hmt] at h
        exact Except.noConfusion h
      | ok ys =>
        cases hx with
        | head => exact ⟨y, hfa⟩
        | tail _ hmem => exact ih hmt hmem

theorem processCells_ok_lines {resolve : List Char → Option (List UInt8)}
    {d : List Char} {cells : List Cell} {out : List Cell × List Char} {cell : Cell}
    {s : List Char} (h : processCells resolve d cells = .ok out) (hc : cell ∈ cells)
    (hm : cell.cell_type = "markdown") (hs : s ∈ cell.source) :
    ∃ s', processLine resolve cell.attachments s = .ok s' := by
  induction cells generalizing d out with
  | nil => cases hc
  | cons c0 rest ih =>
    rw [processCells] at h
    by_cases hm0 : c0.cell_type = "markdown"
    · rw [if_pos hm0] at h
      cases hcd : cellDoc d c0 with
      | error e =>
        simp only [hcd] at h
        exact Except.noConfusion h
      | ok doc' =>
        simp only [hcd] at h
        cases hme : mapE (processLine resolve c0.attachments) c0.source with
        | error e =>
          simp only [hme] at h
          exact Except.noConfusion h
        | ok src' =>
          simp only [hme] at h
          cases hpc : processCells resolve doc' rest with
          | error e =>
            simp only [hpc] at h
            exact Except.noConfusion h
          | ok cd =>
            cases hc with
            | head => exact mapE_ok_mem hme hs
            | tail _ hmem => exact ih hpc hmem
    · rw [if_neg hm0] at h
      cases hpc : processCells resolve d rest with
      | error e =>
        simp only [hpc] at h
        exact Except.noConfusion h
      | ok cd =>
        cases hc with
        | head => exact absurd hm hm0
        | tail _ hmem => exact ih hpc hmem

/-- C4: a notebook holding a markdown cell with a line that references an
image file that cannot be read never processes successfully — the failure
propagates out of the per-file pass (so the file's task generation
aborts); the broken reference is never silently skipped or emitted. -/
theorem c4_unreadable_image_fails (resolve : List Char → Option (List UInt8))
    (nb : Notebook)
    (h : ∃ cell ∈ nb.cells, cell.cell_type = "markdown" ∧
      ∃ s ∈ cell.source, refersUnreadableLine resolve s) :
    exceptOk (processNb resolve nb) = false := by
  obtain ⟨cell, hc, hm, s, hs, href⟩ := h
  rw [processNb]
  cases hpc : processCells resolve [] nb.cells with
  | error e => rfl
  | ok cd =>
    obtain ⟨s', hok⟩ := processCells_ok_lines hpc hc hm hs
    rw [processLine_error_of_unreadable href] at hok
    exact Except.noConfusion hok

/-- Witness for C4: the concrete notebook referencing `missing.png` under
a lookup with no readable files fails to process. -/
theorem c4_unreadable_image_fails_witness :
    exceptOk (processNb noResolve c4Nb) = false :=
  c4_unreadable_image_fails noResolve c4Nb
    ⟨⟨"markdown", ["![a](missing.png)".toList], []⟩, by decide, rfl,
      "![a](missing.png)".toList, by decide,
      Or.inr ⟨by decide, by decide, "a".toList, "missing.png".toList, by decide,
        by decide, rfl⟩⟩

/-! ## Claim C10 -/

/-- C10: re-running the pipeline with identical inputs — site
configuration, template-hook dependencies, translatable context values,
navigation links, plugin configuration, discovered file lists — produces
identical change-detection fingerprints for every task of both runs. -/
theorem c10_fingerprints_deterministic (fs₁ fs₂ : FS) (ctx₁ ctx₂ : SiteCtx) (kw₁ kw₂ : Kw)
    (hpy : fs₁.pyFiles = fs₂.pyFiles) (hm : fs₁.mlabFiles = fs₂.mlabFiles)
    (hj : fs₁.jupCats = fs₂.jupCats) (hi : fs₁.images = fs₂.images)
    (hgc : ctx₁.global_context = ctx₂.global_context)
    (hth : ctx₁.template_hooks = ctx₂.template_hooks)
    (htr : ctx₁.translatable = ctx₂.translatable)
    (hnl : ctx₁.nav_links = ctx₂.nav_links)
    (htd : ctx₁.templateDeps = ctx₂.templateDeps)
    (hkw : kw₁ = kw₂) :
    (genTasks fs₁ ctx₁ kw₁).tasks.map (fun t => t.uptodate) =
      (genTasks fs₂ ctx₂ kw₂).tasks.map (fun t => t.uptodate) := by
  have hfs : fs₁ = fs₂ := by
    cases fs₁
    cases fs₂
    simp_all
  have hctx : ctx₁ = ctx₂ := by
    cases ctx₁
    cases ctx₂
    simp_all
  subst hfs hctx hkw
  rfl

/-- Witness for C10 at a concrete configuration. -/
theorem c10_fingerprints_deterministic_witness :
    (genTasks fsEmptyC cSite cKwPy).tasks.map (fun t => t.uptodate) =
      (genTasks fsEmptyC cSite cKwPy).tasks.map (fun t => t.uptodate) :=
  c10_fingerprints_deterministic fsEmptyC fsEmptyC cSite cSite cKwPy cKwPy
    rfl rfl rfl rfl rfl rfl rfl rfl rfl rfl

end BuildExamples
